import Mathlib

/-!
Verification development for the MasterCal → Google Calendar sync core
(`parser_local.py` and `gcal_sync.py`).

The Python source is shallowly embedded as executable Lean definitions:
* strings are `String`/`List Char`; the regular expressions `_TIME_RE`,
  `_TIME_RANGE_RE`, `_DATE_RE`, `_DATE_RANGE_RE` are hand-translated into
  backtracking matchers that reproduce Python `re` semantics (leftmost
  match, greedy quantifiers with backtracking, word boundaries) on the
  character classes that occur in those patterns;
* Python `datetime.date` values are a `Date` structure together with the
  validity predicate that `date(y, m, d)` enforces; ISO `YYYY-MM-DD`
  rendering is injective, so the engine's string comparisons of dates are
  modelled as `Date` equality;
* `HH:MM` time-of-day strings are a `TimeHM` structure (hour, minute);
  the rendering `f"{h:02d}:{mi:02d}"` is injective, so string equality is
  modelled as `TimeHM` equality;
* fallible code ( `raise ValueError` / strict-mode `RuntimeError` ) returns
  `Except`-style results;
* the SHA-256 digest used by `legacy_uid` / `event_uid` is an abstract
  parameter `hash : UidKey → String`, where `UidKey` is the (injectively
  JSON-serialised) key dictionary fed to `hashlib.sha256`; theorems that
  depend on absence of digest collisions take that as an explicit
  hypothesis on the concretely occurring keys;
* the Google Calendar service is a record of operations `CalSvc σ`; the
  reconciliation engine `upsert_events` is written once against it.  Two
  instantiations are provided: a deterministic calendar-state model
  (lookup by iCalUID preferring non-cancelled matches, insert rejecting
  duplicate iCalUIDs with HTTP 409, in-place update/patch) and a scripted
  oracle used to exercise the 409-conflict handling.
-/

/-- Model of Python `str.isspace`-class characters as used by the regex
class `\s` and by `str.strip()`. -/
def isSpaceC (c : Char) : Bool := c.isWhitespace

/-- The regex class `\d` (ASCII digits, as produced by the patterns here). -/
def isDigitC (c : Char) : Bool := c.isDigit

/-- The regex class `[A-Za-z]`. -/
def isAlphaC (c : Char) : Bool := c.isAlpha

/-- The regex word class `\w`, used for `\b` word boundaries. -/
def isWordC (c : Char) : Bool := c.isAlphanum || c == '_'

def digitVal (c : Char) : Nat := c.toNat - '0'.toNat

/-- Python `str.strip()` on a character list. -/
def trimC (s : List Char) : List Char :=
  ((s.dropWhile isSpaceC).reverse.dropWhile isSpaceC).reverse

theorem length_dropWhileC_le (p : Char → Bool) (l : List Char) :
    (l.dropWhile p).length ≤ l.length :=
  (List.dropWhile_sublist (l := l) p).length_le

/-- Python `re.sub(r"\s{2,}", " ", s)`: every run of two or more whitespace
characters becomes a single space; an isolated whitespace character is kept
as-is.  Structural recursion on a fuel bounded by the list length (the
remaining input shrinks at every step, so the fuel never runs out). -/
def collapse2F : Nat → List Char → List Char
  | 0, s => s
  | _, [] => []
  | fuel + 1, c :: rest =>
    if isSpaceC c then
      match rest with
      | c2 :: rest2 =>
        if isSpaceC c2 then ' ' :: collapse2F fuel (rest2.dropWhile isSpaceC)
        else c :: collapse2F fuel (c2 :: rest2)
      | [] => [c]
    else c :: collapse2F fuel rest

def collapse2 (s : List Char) : List Char := collapse2F s.length s

/-- Python `re.sub(r"\s+", " ", s)`: every run of one or more whitespace
characters becomes a single space (used by `_norm_summary`). -/
def collapseAllF : Nat → List Char → List Char
  | 0, s => s
  | _, [] => []
  | fuel + 1, c :: rest =>
    if isSpaceC c then ' ' :: collapseAllF fuel (rest.dropWhile isSpaceC)
    else c :: collapseAllF fuel rest

def collapseAll (s : List Char) : List Char := collapseAllF s.length s

/-- Calendar date, modelling Python `datetime.date(y, m, d)` values. -/
structure Date where
  y : Nat
  m : Nat
  d : Nat
deriving DecidableEq, Repr

def isLeap (y : Nat) : Bool := (y % 4 == 0 && y % 100 != 0) || (y % 400 == 0)

def daysInMonth (y m : Nat) : Nat :=
  if m = 2 then (if isLeap y then 29 else 28)
  else if m = 4 ∨ m = 6 ∨ m = 9 ∨ m = 11 then 30
  else 31

/-- The constraints `datetime.date(y, m, d)` enforces (MINYEAR/MAXYEAR and
day-of-month range); violating them raises `ValueError`. -/
def Date.Valid (dt : Date) : Prop :=
  1 ≤ dt.y ∧ dt.y ≤ 9999 ∧ 1 ≤ dt.m ∧ dt.m ≤ 12 ∧ 1 ≤ dt.d ∧ dt.d ≤ daysInMonth dt.y dt.m

instance (dt : Date) : Decidable dt.Valid := by unfold Date.Valid; infer_instance

/-- Python `d + timedelta(days=1)` for one day. -/
def Date.nextDay (dt : Date) : Date :=
  if dt.d < daysInMonth dt.y dt.m then ⟨dt.y, dt.m, dt.d + 1⟩
  else if dt.m < 12 then ⟨dt.y, dt.m + 1, 1⟩
  else ⟨dt.y + 1, 1, 1⟩

/-- Python `d - timedelta(days=1)` for one day (callers guard the
`date.min` overflow case separately, as the Python code catches it). -/
def Date.prevDay (dt : Date) : Date :=
  if 1 < dt.d then ⟨dt.y, dt.m, dt.d - 1⟩
  else if 1 < dt.m then ⟨dt.y, dt.m - 1, daysInMonth dt.y (dt.m - 1)⟩
  else ⟨dt.y - 1, 12, 31⟩

def Date.addDays : Date → Nat → Date
  | dt, 0 => dt
  | dt, n + 1 => dt.nextDay.addDays n

/-- Chronological strict order on dates; for dates this coincides with the
lexicographic order on (year, month, day), which is how Python compares them. -/
def Date.lt (a b : Date) : Prop :=
  a.y < b.y ∨ (a.y = b.y ∧ (a.m < b.m ∨ (a.m = b.m ∧ a.d < b.d)))

instance (a b : Date) : Decidable (Date.lt a b) := by unfold Date.lt; infer_instance

/-- Time of day, modelling the `"HH:MM"` 24-hour strings of the Python code
(`f"{h:02d}:{mi:02d}"`, an injective rendering). -/
structure TimeHM where
  h : Nat
  mi : Nat
deriving DecidableEq, Repr

def TimeHM.minutes (t : TimeHM) : Nat := t.h * 60 + t.mi

/-- Parse failures raised (as `ValueError`) out of the time-token helpers of
`parser_local.py`.  These exceptions are NOT caught by
`parse_mastercal_local`'s per-line error handling. -/
inductive TimeErr
  | badTime (t : String)
  | badRangeT1 (t : String)
  | outOfRange (t : String)
deriving DecidableEq, Repr

/-- Core of `_norm_hhmm` after the regex has produced hour, minute and
am/pm flag: the noon rule (`12` becomes `0`, then pm adds 12) followed by
the range check `0 <= h <= 23 and 0 <= mi <= 59`.  `none` models the
`ValueError "Time out of range"`. -/
def normHHMMCore (h mi : Nat) (pm : Bool) : Option TimeHM :=
  let h1 := if h = 12 then 0 else h
  let h2 := if pm then h1 + 12 else h1
  if h2 ≤ 23 ∧ mi ≤ 59 then some ⟨h2, mi⟩ else none

/-- Candidate matches (priority order) for the regex piece `\d{1,2}`:
greedy, so two digits are preferred over one. -/
def digits12 : List Char → List (List Char × List Char × Nat)
  | c1 :: c2 :: rest =>
    if isDigitC c1 then
      if isDigitC c2 then
        [([c1, c2], rest, 10 * digitVal c1 + digitVal c2),
         ([c1], c2 :: rest, digitVal c1)]
      else [([c1], c2 :: rest, digitVal c1)]
    else []
  | [c1] => if isDigitC c1 then [([c1], [], digitVal c1)] else []
  | [] => []

/-- Candidate matches for the optional regex group `(?:[:.](?P<m>\d{2}))?`:
taking the group is preferred over skipping it. -/
def optMinutes (s : List Char) : List (List Char × List Char × Option Nat) :=
  (match s with
   | sep :: d1 :: d2 :: rest =>
     if (sep == ':' || sep == '.') && isDigitC d1 && isDigitC d2 then
       [([sep, d1, d2], rest, some (10 * digitVal d1 + digitVal d2))]
     else []
   | _ => []) ++ [([], s, none)]

/-- Candidate matches for greedy `\s*`: maximal munch first, then ever
shorter prefixes (regex backtracking order). -/
def spacesList : List Char → List (List Char × List Char)
  | [] => [([], [])]
  | c :: rest =>
    if isSpaceC c then
      (spacesList rest).map (fun p => (c :: p.1, p.2)) ++ [([], c :: rest)]
    else [([], c :: rest)]

/-- The regex alternation `(am|pm)` under `re.IGNORECASE`; `true` = pm. -/
def ampmTok : List Char → Option (List Char × List Char × Bool)
  | c1 :: c2 :: rest =>
    if (c1 == 'a' || c1 == 'A') && (c2 == 'm' || c2 == 'M') then
      some ([c1, c2], rest, false)
    else if (c1 == 'p' || c1 == 'P') && (c2 == 'm' || c2 == 'M') then
      some ([c1, c2], rest, true)
    else none
  | _ => none

/-- The `\b` assertion between a character `prev` and the remaining input:
a boundary holds iff word-character status changes (end of input counts as
non-word). -/
def wordBoundary (prev : Char) (rest : List Char) : Bool :=
  isWordC prev != (match rest with | [] => false | c :: _ => isWordC c)

/-- Matches of `_TIME_RE` anchored at the start of `s`, in backtracking
priority order: `(?P<h>\d{1,2})(?:[:.](?P<m>\d{2}))?\s*(?P<ampm>am|pm)\b`.
Each candidate is (consumed text, rest, h, mi, pm).  The character before
the `\b` is always the final `m`/`M` of the am/pm token (a word
character). -/
def timeAtCands (s : List Char) : List (List Char × List Char × Nat × Nat × Bool) :=
  (digits12 s).flatMap fun p1 =>
    (optMinutes p1.2.1).flatMap fun p2 =>
      (spacesList p2.2.1).flatMap fun p3 =>
        match ampmTok p3.2 with
        | some (ca, r4, pm) =>
          if wordBoundary 'm' r4 then
            [(p1.1 ++ p2.1 ++ p3.1 ++ ca, r4, p1.2.2, p2.2.2.getD 0, pm)]
          else []
        | none => []

def timeAt (s : List Char) : Option (List Char × List Char × Nat × Nat × Bool) :=
  (timeAtCands s).head?

/-- `_TIME_RE.search`: leftmost match; returns
(text before the match, matched text, text after, h, mi, pm). -/
def timeSearch : List Char → Option (List Char × List Char × List Char × Nat × Nat × Bool)
  | [] => none
  | c :: rest =>
    match timeAt (c :: rest) with
    | some (cons, r, h, mi, pm) => some ([], cons, r, h, mi, pm)
    | none =>
      (timeSearch rest).map fun q => (c :: q.1, q.2.1, q.2.2.1, q.2.2.2.1, q.2.2.2.2.1, q.2.2.2.2.2)

/-- `_norm_hhmm` on a token string: re-search `_TIME_RE` inside it (failing
with `ValueError "Bad time"`), then apply the noon rule and the range
check. -/
def _norm_hhmm (t : List Char) : Except TimeErr TimeHM :=
  match timeSearch t with
  | none => .error (.badTime ⟨t⟩)
  | some (_, _, _, h, mi, pm) =>
    match normHHMMCore h mi pm with
    | some out => .ok out
    | none => .error (.outOfRange ⟨t⟩)

/-- Candidates for the `t1` group of `_TIME_RANGE_RE`:
`\d{1,2}(?:[:.]\d{2})?\s*(?:am|pm)` (am/pm required); yields (t1 text, rest). -/
def t1Cands (s : List Char) : List (List Char × List Char) :=
  (digits12 s).flatMap fun p1 =>
    (optMinutes p1.2.1).flatMap fun p2 =>
      (spacesList p2.2.1).flatMap fun p3 =>
        match ampmTok p3.2 with
        | some (ca, r4, _) => [(p1.1 ++ p2.1 ++ p3.1 ++ ca, r4)]
        | none => []

/-- Candidates for the `t2` group of `_TIME_RANGE_RE`:
`\d{1,2}(?:[:.]\d{2})?\s*(?:am|pm)?` (am/pm optional, preferred present). -/
def t2Cands (s : List Char) : List (List Char × List Char) :=
  (digits12 s).flatMap fun p1 =>
    (optMinutes p1.2.1).flatMap fun p2 =>
      (spacesList p2.2.1).flatMap fun p3 =>
        (match ampmTok p3.2 with
         | some (ca, r4, _) => [(p1.1 ++ p2.1 ++ p3.1 ++ ca, r4)]
         | none => []) ++ [(p1.1 ++ p2.1 ++ p3.1, p3.2)]

/-- Matches of `_TIME_RANGE_RE` anchored at the start of `s`:
`(?P<t1>...)\s*-\s*(?P<t2>...)\b`; yields (consumed, rest, t1, t2). -/
def rangeAtCands (s : List Char) : List (List Char × List Char × List Char × List Char) :=
  (t1Cands s).flatMap fun q1 =>
    (spacesList q1.2).flatMap fun p1 =>
      match p1.2 with
      | '-' :: r3 =>
        (spacesList r3).flatMap fun p2 =>
          (t2Cands p2.2).flatMap fun q2 =>
            if wordBoundary (q2.1.getLastD 'x') q2.2 then
              [(q1.1 ++ p1.1 ++ '-' :: p2.1 ++ q2.1, q2.2, q1.1, q2.1)]
            else []
      | _ => []

def rangeAt (s : List Char) : Option (List Char × List Char × List Char × List Char) :=
  (rangeAtCands s).head?

/-- `_TIME_RANGE_RE.search`: leftmost match; returns
(text before, matched text, text after, t1, t2). -/
def rangeSearch : List Char → Option (List Char × List Char × List Char × List Char × List Char)
  | [] => none
  | c :: rest =>
    match rangeAt (c :: rest) with
    | some (cons, r, t1, t2) => some ([], cons, r, t1, t2)
    | none =>
      (rangeSearch rest).map fun q => (c :: q.1, q.2.1, q.2.2.1, q.2.2.2.1, q.2.2.2.2)

/-- Python `re.search(r"(am|pm)", t, re.IGNORECASE) is not None`: a
case-insensitive `am`/`pm` substring occurs. -/
def hasAmPmSub : List Char → Bool
  | c1 :: c2 :: rest =>
    ((c1 == 'a' || c1 == 'A' || c1 == 'p' || c1 == 'P') && (c2 == 'm' || c2 == 'M'))
      || hasAmPmSub (c2 :: rest)
  | _ => false

/-- `_strip_time_tokens`: extract a time range (preferred) or a single time
token from the text, removing it and collapsing whitespace; a missing am/pm
marker on the range's right side inherits the left side's marker.  The
Python code appends `m1.group("ampm")` with its original casing; since all
later matching is case-insensitive, the lowercase append used here is
observationally equivalent. -/
def _strip_time_tokens (s : List Char) : Except TimeErr (List Char × Option TimeHM × Option TimeHM) := do
  match rangeSearch s with
  | some (pre, _, rest, t1, t2) =>
    let t2s := trimC t2
    let t2' ←
      if hasAmPmSub t2s then pure t2s
      else
        match timeSearch t1 with
        | none => throw (.badRangeT1 ⟨t1⟩)
        | some (_, _, _, _, _, pm) => pure (t2s ++ (if pm then ['p', 'm'] else ['a', 'm']))
    let st ← _norm_hhmm t1
    let et ← _norm_hhmm t2'
    return (collapse2 (trimC (pre ++ ' ' :: rest)), some st, some et)
  | none =>
    match timeSearch s with
    | some (pre, cons, rest, _, _, _) =>
      let st ← _norm_hhmm cons
      return (collapse2 (trimC (pre ++ ' ' :: rest)), some st, none)
    | none => return (trimC s, none, none)

/-- `_split_location`: split on the first `@`; both sides are stripped and
an empty location becomes absent. -/
def _split_location (s : List Char) : List Char × Option (List Char) :=
  if '@' ∈ s then
    let left := s.takeWhile (fun c => !(c == '@'))
    let right := (s.dropWhile (fun c => !(c == '@'))).tail
    (trimC left, let loc := trimC right; if loc = [] then none else some loc)
  else (trimC s, none)

/-- The `ParsedEvent` output schema of `parser_local.py`.  Python carries
dates as ISO `YYYY-MM-DD` strings and times as `HH:MM` strings; both
renderings are injective on the values produced, so they are modelled by
`Date` and `TimeHM` directly. -/
structure ParsedEvent where
  summary : String
  start_date : Date
  start_time : Option TimeHM
  end_date : Date
  end_time : Option TimeHM
  location : Option String
  description : Option String
deriving DecidableEq, Repr

/-- The `_MONTHS` table applied to `mon3.strip().lower()`; `none` models
the `ValueError "Unknown month"` raised by `_mon`. -/
def _mon (mon3 : List Char) : Option Nat :=
  match (String.mk ((trimC mon3).map Char.toLower)) with
  | "jan" => some 1 | "feb" => some 2 | "mar" => some 3 | "apr" => some 4
  | "may" => some 5 | "jun" => some 6 | "jul" => some 7 | "aug" => some 8
  | "sep" => some 9 | "oct" => some 10 | "nov" => some 11 | "dec" => some 12
  | _ => none

/-- `_to_date(y, d, mon3)` = `date(y, _mon(mon3), d)`; `none` models any
`ValueError` raised (unknown month or invalid date components). -/
def _to_date (y : Nat) (d : Nat) (mon3 : List Char) : Option Date :=
  match _mon mon3 with
  | none => none
  | some m =>
    if 1 ≤ y ∧ y ≤ 9999 ∧ 1 ≤ d ∧ d ≤ daysInMonth y m then some ⟨y, m, d⟩ else none

/-- Exactly three `[A-Za-z]` characters. -/
def letters3 : List Char → Option (List Char × List Char)
  | a :: b :: c :: rest =>
    if isAlphaC a && isAlphaC b && isAlphaC c then some ([a, b, c], rest) else none
  | _ => none

/-- Candidates for the optional parenthetical group `(?:\([^)]*\))?` of
`_DATE_RE` (present preferred; absent if no closing parenthesis). -/
def optParen (s : List Char) : List (List Char × List Char) :=
  (match s with
   | '(' :: rest =>
     let inside := rest.takeWhile (fun c => !(c == ')'))
     let after := rest.dropWhile (fun c => !(c == ')'))
     match after with
     | ')' :: r2 => [('(' :: inside ++ [')'], r2)]
     | _ => []
   | _ => []) ++ [([], s)]

/-- `_DATE_RE.match`:
`^\s*(?P<d>\d{1,2})\s*(?P<m>[A-Za-z]{3})\s*(?:\([^)]*\))?\s*(?P<rest>.*)\s*$`.
Since the lines fed to it contain no newline, the greedy `.*` captures the
whole remainder.  Returns (d, month letters, rest). -/
def dateAtCands (s : List Char) : List (Nat × List Char × List Char) :=
  (spacesList s).flatMap fun p0 =>
    (digits12 p0.2).flatMap fun p1 =>
      (spacesList p1.2.1).flatMap fun p2 =>
        match letters3 p2.2 with
        | some (mon, r3) =>
          (spacesList r3).flatMap fun p3 =>
            (optParen p3.2).flatMap fun p4 =>
              (spacesList p4.2).map fun p5 => (p1.2.2, mon, p5.2)
        | none => []

def matchDate (s : List Char) : Option (Nat × List Char × List Char) :=
  (dateAtCands s).head?

/-- `_DATE_RANGE_RE.match`:
`^\s*(?P<d1>\d{1,2})\s*(?P<m1>[A-Za-z]{3})\s*-\s*(?P<d2>\d{1,2})\s*(?P<m2>[A-Za-z]{3})\s*(?P<rest>.*)\s*$`.
Returns (d1, mon1, d2, mon2, rest). -/
def dateRangeAtCands (s : List Char) :
    List (Nat × List Char × Nat × List Char × List Char) :=
  (spacesList s).flatMap fun p0 =>
    (digits12 p0.2).flatMap fun p1 =>
      (spacesList p1.2.1).flatMap fun p2 =>
        match letters3 p2.2 with
        | some (m1, r3) =>
          (spacesList r3).flatMap fun p3 =>
            match p3.2 with
            | '-' :: r5 =>
              (spacesList r5).flatMap fun p4 =>
                (digits12 p4.2).flatMap fun p5 =>
                  (spacesList p5.2.1).flatMap fun p6 =>
                    match letters3 p6.2 with
                    | some (m2, r8) =>
                      (spacesList r8).map fun p7 => (p1.2.2, m1, p5.2.2, m2, p7.2)
                    | none => []
            | _ => []
        | none => []

def matchDateRange (s : List Char) : Option (Nat × List Char × Nat × List Char × List Char) :=
  (dateRangeAtCands s).head?

/-- The kinds of per-line diagnostics `parse_mastercal_local` appends to its
`errors` list (the Python messages also embed the line number and the line
text; those are carried separately in `Diag`). -/
inductive DiagKind
  | dateRangeFail
  | dateFail
  | emptySummary
  | unrecognized
deriving DecidableEq, Repr

structure Diag where
  lineNo : Nat
  kind : DiagKind
  line : String
deriving DecidableEq, Repr

/-- Outcome of processing one line of the schedule text. -/
inductive LineOut
  | skip
  | setYear (y : Nat)
  | event (e : ParsedEvent)
  | diag (k : DiagKind)
  | crash (e : TimeErr)
deriving DecidableEq, Repr

/-- `line.lower().startswith("#mastercal")`. -/
def isHeaderLine (l : List Char) : Bool :=
  (l.map Char.toLower).take 10 == "#mastercal".toList

/-- `re.fullmatch(r"\d{4}", line)`. -/
def isYearLine (l : List Char) : Bool :=
  l.length == 4 && l.all isDigitC

def digitsToNat (l : List Char) : Nat :=
  l.foldl (fun a c => 10 * a + digitVal c) 0

/-- Shared tail of the date-range and single-date branches: strip the rest,
split off the location, extract time tokens (which can raise), reject an
empty summary, and build the `ParsedEvent` (whose `description` embeds the
stripped source line). -/
def buildEvent (sd ed : Date) (rest : List Char) (line : List Char) : LineOut :=
  let rest' := trimC rest
  let bl := _split_location rest'
  match _strip_time_tokens bl.1 with
  | .error e => .crash e
  | .ok (summary, st, et) =>
    if summary = [] then .diag .emptySummary
    else
      .event ⟨⟨summary⟩, sd, st, ed, et, bl.2.map (fun l => (⟨l⟩ : String)),
        some (⟨"source_line=".toList ++ line⟩ : String)⟩

/-- One iteration of the line loop of `parse_mastercal_local`: strip the raw
line, skip blank and `#mastercal` header lines, handle a 4-digit year-context
line, then try the date-range shape, then the single-date shape, and fall
back to an unrecognized-format diagnostic. -/
def parseLine (year : Nat) (raw : String) : LineOut :=
  let line := trimC raw.toList
  if line = [] then .skip
  else if isHeaderLine line then .skip
  else if isYearLine line then .setYear (digitsToNat line)
  else
    match matchDateRange line with
    | some (d1, m1, d2, m2, rest) =>
      match _to_date year d1 m1, _to_date year d2 m2 with
      | some sd, some ed => buildEvent sd ed rest line
      | _, _ => .diag .dateRangeFail
    | none =>
      match matchDate line with
      | some (d, m, rest) =>
        match _to_date year d m with
        | some sd => buildEvent sd sd rest line
        | none => .diag .dateFail
      | none => .diag .unrecognized

/-- Loop state of `parse_mastercal_local`: the ambient year context, the
1-based index of the last consumed line, and the accumulated events and
diagnostics. -/
structure PState where
  year : Nat
  idx : Nat
  events : List ParsedEvent
  errors : List Diag
deriving DecidableEq, Repr

/-- The line loop.  In strict mode the first diagnostic `break`s out of the
loop (no further lines are consumed); an uncaught `ValueError` from time
parsing aborts everything. -/
def runLines (strict : Bool) : PState → List String → Except TimeErr PState
  | st, [] => .ok st
  | st, l :: ls =>
    let i := st.idx + 1
    match parseLine st.year l with
    | .skip => runLines strict { st with idx := i } ls
    | .setYear y => runLines strict { st with idx := i, year := y } ls
    | .event e => runLines strict { st with idx := i, events := st.events ++ [e] } ls
    | .crash err => .error err
    | .diag k =>
      let st' := { st with idx := i, errors := st.errors ++ [⟨i, k, l⟩] }
      if strict then .ok st' else runLines strict st' ls

/-- Overall result of `parse_mastercal_local`: the returned `ParsedCalendar`
(with the logged warnings list), the strict-mode `RuntimeError`, or an
uncaught `ValueError` from a time token. -/
inductive PResult
  | ok (events : List ParsedEvent) (warnings : List Diag)
  | strictFail (errors : List Diag)
  | raised (e : TimeErr)
deriving DecidableEq, Repr

/-- `parse_mastercal_local` on a pre-split list of lines.  The default year
(`datetime.now(SGT).date().year` in Python) and the `MASTER_CAL_STRICT`
environment flag are explicit parameters. -/
def parse_mastercal_lines (strict : Bool) (defaultYear : Nat) (lines : List String) : PResult :=
  match runLines strict ⟨defaultYear, 0, [], []⟩ lines with
  | .error e => .raised e
  | .ok st =>
    if st.errors ≠ [] ∧ strict then .strictFail st.errors
    else .ok st.events st.errors

/-- `parse_mastercal_local` on the raw text (`str.splitlines` modelled as
splitting on newline, the only line terminator occurring in chat text). -/
def parse_mastercal_local (strict : Bool) (defaultYear : Nat) (text : String) : PResult :=
  parse_mastercal_lines strict defaultYear (text.splitOn "\n")

/-- `_norm_summary`: strip, lowercase, collapse all whitespace runs to a
single space. -/
def _norm_summary (s : String) : String :=
  ⟨collapseAll ((trimC s.toList).map Char.toLower)⟩

/-- The key dictionary serialised (via `json.dumps(..., sort_keys=True)`,
an injective encoding) and fed to `hashlib.sha256` when computing event
identifiers: summary-only for the legacy scheme, summary plus both dates
for the collision-safe scheme. -/
inductive UidKey
  | legacy (summary : String)
  | collision (summary : String) (start_date end_date : Date)
deriving DecidableEq, Repr

/-- `f"tg-{chat_id}-{h}@mastercal.local"`. -/
def mkUid (chat_id : Int) (h : String) : String :=
  "tg-" ++ toString chat_id ++ "-" ++ h ++ "@mastercal.local"

/-- `legacy_uid`, with the truncated SHA-256 hex digest abstracted as
`hash`. -/
def legacy_uid (hash : UidKey → String) (chat_id : Int) (ev : ParsedEvent) : String :=
  mkUid chat_id (hash (.legacy (_norm_summary ev.summary)))

/-- `event_uid`: summary-only (legacy) unless a collision was detected, in
which case the dates join the hashed key. -/
def event_uid (hash : UidKey → String) (chat_id : Int) (ev : ParsedEvent) (collide : Bool) : String :=
  if !collide then legacy_uid hash chat_id ev
  else mkUid chat_id (hash (.collision (_norm_summary ev.summary) ev.start_date ev.end_date))

/-- `collision_summaries`: the normalized summaries occurring more than
once in the batch (a Python `set`, modelled as a deduplicated list). -/
def collision_summaries (events : List ParsedEvent) : List String :=
  let sums := events.map (fun e => _norm_summary e.summary)
  sums.dedup.filter (fun s => sums.count s > 1)

/-- A Google Calendar `start`/`end` field: `{"date": ...}` (all-day,
exclusive on the end side), `{"dateTime": ..., "timeZone": ...}` (the
date component is the one obtained in the fixed SGT zone, minutes are
minutes past local midnight), or absent. -/
inductive GTime
  | gdate (d : Date)
  | gdatetime (d : Date) (mins : Nat)
  | gmissing
deriving DecidableEq, Repr

/-- A remote calendar event as returned by the events-list API: record id,
lifecycle status (the code only distinguishes `"cancelled"`), the iCalUID
carrying the event identity, and the mutable payload fields. -/
structure GRecord where
  id : Nat
  status : String
  icalUID : String
  summary : String
  location : Option String
  description : Option String
  gstart : GTime
  gend : GTime
deriving DecidableEq, Repr

/-- The insert/update payload built by `_event_body`. -/
structure GBody where
  summary : String
  icalUID : String
  location : Option String
  description : Option String
  gstart : GTime
  gend : GTime
deriving DecidableEq, Repr

/-- The payload of `_patch_revive`: the body minus its `iCalUID`, with
`status` forced to `"confirmed"`. -/
structure GPatch where
  summary : String
  location : Option String
  description : Option String
  gstart : GTime
  gend : GTime
  status : String
deriving DecidableEq, Repr

def patchBody (b : GBody) : GPatch :=
  ⟨b.summary, b.location, b.description, b.gstart, b.gend, "confirmed"⟩

/-- `_item_start_date` on the `start` field: the date of an all-day start,
the (SGT) date of a timestamped start, else absent. -/
def startDateOf : GTime → Option Date
  | .gdate d => some d
  | .gdatetime d _ => some d
  | .gmissing => none

def _item_start_date (item : GRecord) : Option Date := startDateOf item.gstart

/-- `_item_end_date_inclusive` on the `end` field: an all-day end date is
exclusive, so one day is subtracted (the `date.min` underflow is caught in
Python and yields `None`); a timestamped end contributes its (SGT) date. -/
def endDateInclOf : GTime → Option Date
  | .gdate d => if d = ⟨1, 1, 1⟩ then none else some d.prevDay
  | .gdatetime d _ => some d
  | .gmissing => none

def _item_end_date_inclusive (item : GRecord) : Option Date := endDateInclOf item.gend

/-- `_event_body`: all-day events render date-only start/end with the end
made exclusive (`end_date + 1 day`); timed events render SGT timestamps,
the end defaulting to `start + 1 hour` (which may roll over local
midnight) when no end time was parsed, and to `end_time` on `end_date`
otherwise.  (For an out-of-range stored time Python's `time()` constructor
would raise; the parser only produces in-range times.) -/
def _event_body (ev : ParsedEvent) (uid : String) : GBody :=
  match ev.start_time with
  | none =>
    ⟨ev.summary, uid, ev.location, ev.description,
      .gdate ev.start_date, .gdate ev.end_date.nextDay⟩
  | some st =>
    let stm := st.minutes
    let gend :=
      match ev.end_time with
      | none =>
        let total := stm + 60
        GTime.gdatetime (ev.start_date.addDays (total / 1440)) (total % 1440)
      | some et => GTime.gdatetime ev.end_date et.minutes
    ⟨ev.summary, uid, ev.location, ev.description,
      .gdatetime ev.start_date stm, gend⟩

/-- The three remote-calendar operations the engine uses.  `find` is
`_find_by_icaluid` (list by iCalUID including cancelled records, up to 5,
preferring a non-cancelled match); `insert` may fail with an HTTP status
code; `update` replaces a record's payload; `patch` applies a
`_patch_revive` payload. -/
structure CalSvc (σ : Type) where
  find : σ → String → Option GRecord × σ
  insert : σ → GBody → Except Nat Unit × σ
  update : σ → Nat → GBody → σ
  patch : σ → Nat → GPatch → σ

/-- The engine-local state shared across the per-event loop of one
`upsert_events` run: the legacy-lookup cache (one snapshot per normalized
summary) and the used legacy record ids per summary. -/
structure EngineSt where
  legacyCache : List (String × Option GRecord)
  legacyUsed : List (String × List Nat)
deriving DecidableEq, Repr

def usedFor (es : EngineSt) (s : String) : List Nat :=
  (es.legacyUsed.lookup s).getD []

/-- The decision log of one run, mirroring the `log(...)` calls at each
decision point of `upsert_events` (`INSERT` is logged before the insert is
attempted, as in the source). -/
inductive EAct
  | found_update (eid : Nat)
  | found_revive (eid : Nat)
  | legacy_lookup (s : String)
  | legacy_update (eid : Nat)
  | legacy_revive (eid : Nat)
  | insert (uid : String)
  | conflict_update (eid : Nat)
  | conflict_revive (eid : Nat)
deriving DecidableEq, Repr

/-- Result of processing one parsed event: the outcome (an `Except Nat`
models a propagated `HttpError` with its status code), the log, and the
updated engine-local and service states. -/
structure StepOut (σ : Type) where
  res : Except Nat Unit
  log : List EAct
  es : EngineSt
  st : σ

/-- The insert branch of `upsert_events` (also the target of the
legacy-claim fallthrough): insert, and on a 409 duplicate conflict re-run
the identity lookup once, updating or reviving on success and re-raising
the conflict if the lookup still finds nothing; any other failure
propagates. -/
def insertStep (svc : CalSvc σ) (uid : String) (body : GBody)
    (es : EngineSt) (st : σ) (pre : List EAct) : StepOut σ :=
  let r := svc.insert st body
  match r.1 with
  | .ok _ => ⟨.ok (), pre ++ [.insert uid], es, r.2⟩
  | .error c =>
    if c = 409 then
      let f2 := svc.find r.2 uid
      match f2.1 with
      | some it2 =>
        if it2.status = "cancelled" then
          ⟨.ok (), pre ++ [.insert uid, .conflict_revive it2.id], es,
            svc.patch f2.2 it2.id (patchBody body)⟩
        else
          ⟨.ok (), pre ++ [.insert uid, .conflict_update it2.id], es,
            svc.update f2.2 it2.id body⟩
      | none => ⟨.error 409, pre ++ [.insert uid], es, f2.2⟩
    else ⟨.error c, pre ++ [.insert uid], es, r.2⟩

/-- The backward-compatibility branch for colliding summaries: look the
legacy (summary-only) identity up once per summary (cached), and claim the
record if it is unused and its dates match (a missing legacy end date is
tolerated); the claimed record is updated/revived with a body carrying the
legacy identity.  On any mismatch, fall through to a normal insert under
the current identity. -/
def legacyStep (svc : CalSvc σ) (hash : UidKey → String) (chat_id : Int)
    (ev : ParsedEvent) (sNorm : String) (uid : String) (body : GBody)
    (es : EngineSt) (st : σ) : StepOut σ :=
  let lUid := legacy_uid hash chat_id ev
  let populated :=
    match es.legacyCache.lookup sNorm with
    | some _ => (es, st, ([] : List EAct))
    | none =>
      let f := svc.find st lUid
      ({ es with legacyCache := (sNorm, f.1) :: es.legacyCache }, f.2,
        [EAct.legacy_lookup sNorm])
  let es₁ := populated.1
  let st₁ := populated.2.1
  let lg₁ := populated.2.2
  match (es₁.legacyCache.lookup sNorm).join with
  | some litem =>
    let used := usedFor es₁ sNorm
    let lsd := _item_start_date litem
    let led := _item_end_date_inclusive litem
    if litem.id ∉ used ∧ lsd = some ev.start_date ∧
        (led = none ∨ led = some ev.end_date) then
      let es₂ := { es₁ with legacyUsed := (sNorm, litem.id :: used) :: es₁.legacyUsed }
      let lbody := _event_body ev lUid
      if litem.status = "cancelled" then
        ⟨.ok (), lg₁ ++ [.legacy_revive litem.id], es₂,
          svc.patch st₁ litem.id (patchBody lbody)⟩
      else
        ⟨.ok (), lg₁ ++ [.legacy_update litem.id], es₂,
          svc.update st₁ litem.id lbody⟩
    else insertStep svc uid body es₁ st₁ lg₁
  | none => insertStep svc uid body es₁ st₁ lg₁

/-- One iteration of the per-event loop of `upsert_events`: resolve
identity, look it up (including cancelled records), and revive / update /
legacy-claim / insert. -/
def processEvent (svc : CalSvc σ) (hash : UidKey → String) (chat_id : Int)
    (colliders : List String) (ev : ParsedEvent) (es : EngineSt) (st : σ) : StepOut σ :=
  let sNorm := _norm_summary ev.summary
  let collide := colliders.contains sNorm
  let uid := event_uid hash chat_id ev collide
  let body := _event_body ev uid
  let f := svc.find st uid
  match f.1 with
  | some item =>
    if item.status = "cancelled" then
      ⟨.ok (), [.found_revive item.id], es, svc.patch f.2 item.id (patchBody body)⟩
    else
      ⟨.ok (), [.found_update item.id], es, svc.update f.2 item.id body⟩
  | none =>
    if collide then legacyStep svc hash chat_id ev sNorm uid body es f.2
    else insertStep svc uid body es f.2 []

/-- The per-event loop: process events in order, concatenating logs; a
propagated error aborts the remaining batch. -/
def upsertGo (svc : CalSvc σ) (hash : UidKey → String) (chat_id : Int)
    (colliders : List String) :
    List ParsedEvent → EngineSt → σ → Except Nat Unit × List EAct × σ
  | [], _, st => (.ok (), [], st)
  | ev :: rest, es, st =>
    let o := processEvent svc hash chat_id colliders ev es st
    match o.res with
    | .error c => (.error c, o.log, o.st)
    | .ok _ =>
      let r := upsertGo svc hash chat_id colliders rest o.es o.st
      (r.1, o.log ++ r.2.1, r.2.2)

structure RunOut (σ : Type) where
  res : Except Nat Unit
  log : List EAct
  fin : σ

/-- `upsert_events`: compute the batch's collision set, then reconcile each
event against the remote service in order, starting from an empty legacy
cache and used-set. -/
def upsert_events (svc : CalSvc σ) (hash : UidKey → String) (chat_id : Int)
    (events : List ParsedEvent) (st : σ) : RunOut σ :=
  let colliders := collision_summaries events
  let r := upsertGo svc hash chat_id colliders events ⟨[], []⟩ st
  ⟨r.1, r.2.1, r.2.2⟩

/-- Deterministic model of the remote Google Calendar: the stored records
(in list order, as returned by the list API) and the id generator for
inserts. -/
structure GCalState where
  recs : List GRecord
  nextId : Nat
deriving DecidableEq, Repr

/-- `_find_by_icaluid`: list up to `maxResults=5` records carrying the
iCalUID (including cancelled ones), return the first non-cancelled match
if any, else the first match, else nothing.  A pure query. -/
def gfind (st : GCalState) (uid : String) : Option GRecord × GCalState :=
  let items := (st.recs.filter (fun r => r.icalUID == uid)).take 5
  (match items.find? (fun r => !(r.status == "cancelled")) with
   | some r => some r
   | none => items.head?, st)

def recordOfBody (i : Nat) (b : GBody) : GRecord :=
  ⟨i, "confirmed", b.icalUID, b.summary, b.location, b.description, b.gstart, b.gend⟩

/-- `events().insert`: the provider rejects a payload whose iCalUID is
already present with an HTTP 409 duplicate conflict; otherwise the record
is appended with a fresh id and confirmed status. -/
def ginsert (st : GCalState) (b : GBody) : Except Nat Unit × GCalState :=
  if st.recs.any (fun r => r.icalUID == b.icalUID) then (.error 409, st)
  else (.ok (), ⟨st.recs ++ [recordOfBody st.nextId b], st.nextId + 1⟩)

def applyUpdate (r : GRecord) (b : GBody) : GRecord :=
  ⟨r.id, "confirmed", b.icalUID, b.summary, b.location, b.description, b.gstart, b.gend⟩

/-- `events().update`: replace the payload of the record with the given id
(the engine only updates non-cancelled records it just looked up; the
replaced record is confirmed, the update bodies carry the record's own
iCalUID). -/
def gupdate (st : GCalState) (eid : Nat) (b : GBody) : GCalState :=
  ⟨st.recs.map (fun r => if r.id == eid then applyUpdate r b else r), st.nextId⟩

def applyPatch (r : GRecord) (p : GPatch) : GRecord :=
  ⟨r.id, p.status, r.icalUID, p.summary, p.location, p.description, p.gstart, p.gend⟩

/-- `events().patch` with a `_patch_revive` payload: overwrite the supplied
fields (forcing `status`) and leave the iCalUID untouched. -/
def gpatch (st : GCalState) (eid : Nat) (p : GPatch) : GCalState :=
  ⟨st.recs.map (fun r => if r.id == eid then applyPatch r p else r), st.nextId⟩

def gcalSvc : CalSvc GCalState := ⟨gfind, ginsert, gupdate, gpatch⟩

instance : DecidableEq (Except Nat Unit) := fun a b =>
  match a, b with
  | .ok (), .ok () => isTrue rfl
  | .error c, .error c' =>
    if h : c = c' then isTrue (by rw [h]) else isFalse (by intro he; cases he; exact h rfl)
  | .ok _, .error _ => isFalse (by intro he; cases he)
  | .error _, .ok _ => isFalse (by intro he; cases he)

/-- A scripted service used to exercise the engine's error handling: the
queued `find` responses and `insert` results are consumed in order, and
every call is recorded. -/
structure OracleState where
  finds : List (Option GRecord)
  insResults : List (Except Nat Unit)
  findLog : List String
  insertLog : List GBody
  updateLog : List (Nat × GBody)
  patchLog : List (Nat × GPatch)
deriving DecidableEq, Repr

def oracleSvc : CalSvc OracleState :=
  { find := fun st uid =>
      match st.finds with
      | r :: rest => (r, { st with finds := rest, findLog := st.findLog ++ [uid] })
      | [] => (none, { st with findLog := st.findLog ++ [uid] })
    insert := fun st b =>
      match st.insResults with
      | r :: rest => (r, { st with insResults := rest, insertLog := st.insertLog ++ [b] })
      | [] => (.ok (), { st with insertLog := st.insertLog ++ [b] })
    update := fun st eid b => { st with updateLog := st.updateLog ++ [(eid, b)] }
    patch := fun st eid p => { st with patchLog := st.patchLog ++ [(eid, p)] } }

/-- A concrete stand-in digest used for witnesses and counterexamples; on
the finitely many keys occurring there it is collision-free, which is the
hypothesis the corresponding theorems take for the real truncated SHA-256. -/
def testHash : UidKey → String
  | .legacy s => "L:" ++ s
  | .collision s sd ed =>
    "C:" ++ s ++ ":" ++ toString sd.y ++ "-" ++ toString sd.m ++ "-" ++ toString sd.d ++
      ":" ++ toString ed.y ++ "-" ++ toString ed.m ++ "-" ++ toString ed.d

/-- Two same-titled events with different dates (a collision), the first a
timed event starting at 23:30 with no end time. -/
def cxE1 : ParsedEvent := ⟨"Party", ⟨2024, 3, 12⟩, some ⟨23, 30⟩, ⟨2024, 3, 12⟩, none, none, none⟩

def cxE2 : ParsedEvent := ⟨"Party", ⟨2024, 4, 12⟩, none, ⟨2024, 4, 12⟩, none, none, none⟩

/-- A pre-existing remote record under the legacy (summary-only) identity of
`cxE1`/`cxE2`, all-day on `cxE1`'s dates. -/
def cxL0 : GRecord :=
  ⟨1, "confirmed", legacy_uid testHash 7 cxE1, "Party", none, none,
    .gdate ⟨2024, 3, 12⟩, .gdate ⟨2024, 3, 13⟩⟩

def cxS0 : GCalState := ⟨[cxL0], 100⟩

/-- A simple non-colliding event used for witnesses. -/
def wEv : ParsedEvent := ⟨"Standup", ⟨2024, 12, 12⟩, some ⟨8, 0⟩, ⟨2024, 12, 12⟩, none, some "HQ", none⟩

def isClaimAct : EAct → Bool
  | .legacy_update _ => true
  | .legacy_revive _ => true
  | _ => false

/-- No legacy-claim decision appears in the log. -/
def NoClaim (log : List EAct) : Prop := ∀ a ∈ log, isClaimAct a = false

instance (log : List EAct) : Decidable (NoClaim log) := by unfold NoClaim; infer_instance

/-- Well-formedness of the modelled remote calendar, guaranteed by the real
provider: record ids are pairwise distinct and below the id generator. -/
def WF (st : GCalState) : Prop :=
  (st.recs.map (fun r => r.id)).Nodup ∧ ∀ r ∈ st.recs, r.id < st.nextId

instance (st : GCalState) : Decidable (WF st) := by unfold WF; infer_instance

/-- Some stored record carries the given iCalUID. -/
def hasUid (st : GCalState) (u : String) : Prop := ∃ r ∈ st.recs, r.icalUID = u

instance (st : GCalState) (u : String) : Decidable (hasUid st u) := by
  unfold hasUid; infer_instance

/-- The current identity the engine computes for `ev` inside a run over a
batch with collision set `colliders`. -/
def uidOf (hash : UidKey → String) (chat_id : Int) (colliders : List String)
    (ev : ParsedEvent) : String :=
  event_uid hash chat_id ev (colliders.contains (_norm_summary ev.summary))

instance {ε α : Type} [DecidableEq ε] [DecidableEq α] : DecidableEq (Except ε α) := fun a b =>
  match a, b with
  | .ok x, .ok y =>
    if h : x = y then isTrue (by rw [h]) else isFalse (by intro he; cases he; exact h rfl)
  | .error e, .error f =>
    if h : e = f then isTrue (by rw [h]) else isFalse (by intro he; cases he; exact h rfl)
  | .ok _, .error _ => isFalse (by intro he; cases he)
  | .error _, .ok _ => isFalse (by intro he; cases he)

theorem daysInMonth_pos (y m : Nat) : 1 ≤ daysInMonth y m := by
  unfold daysInMonth
  split_ifs <;> omega

theorem Date.prevDay_nextDay (dt : Date) (h : dt.Valid) : dt.nextDay.prevDay = dt := by
  obtain ⟨y, m, d⟩ := dt
  obtain ⟨h1, h2, h3, h4, h5, h6⟩ := h
  simp only at h1 h2 h3 h4 h5 h6
  have hpos := daysInMonth_pos y m
  unfold Date.nextDay
  dsimp only
  split_ifs with hd hm
  · unfold Date.prevDay
    dsimp only
    rw [if_pos (by omega)]
    simp
  · unfold Date.prevDay
    dsimp only
    rw [if_neg (by omega), if_pos (by omega)]
    have hdm : d = daysInMonth y m := by omega
    simp [hdm]
  · unfold Date.prevDay
    dsimp only
    rw [if_neg (by omega), if_neg (by omega)]
    have hm12 : m = 12 := by omega
    have h31 : daysInMonth y 12 = 31 := by unfold daysInMonth; norm_num
    subst hm12
    have hd31 : d = 31 := by omega
    simp [hd31]

theorem Date.nextDay_ne_min (dt : Date) (h : dt.Valid) : dt.nextDay ≠ ⟨1, 1, 1⟩ := by
  obtain ⟨h1, h2, h3, h4, h5, h6⟩ := h
  unfold Date.nextDay
  split_ifs <;> intro he <;> injection he with hy hm hd <;> omega

/-- C4: `_norm_hhmm` obeys the noon rule — hour 12 with am maps to 00, hour
12 with pm stays 12, any other hour with pm has 12 added — and
normalization fails (raises) exactly when the adjusted hour or the minute
is out of range, succeeding on every in-range token. -/
theorem c4_norm_hhmm_noon_rule (h mi : Nat) (pm : Bool) :
    (normHHMMCore 12 mi false = if mi ≤ 59 then some ⟨0, mi⟩ else none) ∧
    (normHHMMCore 12 mi true = if mi ≤ 59 then some ⟨12, mi⟩ else none) ∧
    (h ≠ 12 → normHHMMCore h mi true =
      if h + 12 ≤ 23 ∧ mi ≤ 59 then some ⟨h + 12, mi⟩ else none) ∧
    (normHHMMCore h mi pm = none ↔
      ((if pm then (if h = 12 then 0 else h) + 12 else if h = 12 then 0 else h) > 23 ∨ mi > 59)) := by
  refine ⟨?_, ?_, ?_, ?_⟩
  · unfold normHHMMCore; simp
  · unfold normHHMMCore; simp
  · intro hne; unfold normHHMMCore; simp [hne]
  · unfold normHHMMCore
    split_ifs <;> simp_all <;> omega

theorem c4_norm_hhmm_noon_rule_witness :
    normHHMMCore 3 5 true = if 3 + 12 ≤ 23 ∧ 5 ≤ 59 then some ⟨3 + 12, 5⟩ else none :=
  (c4_norm_hhmm_noon_rule 3 5 true).2.2.1 (by decide)

/-- C9: for an all-day event (no start time) the payload's end is date-only
and exclusive — `end_date` plus one day — and extracting the inclusive end
date back from that payload recovers the original `end_date`. -/
theorem c9_allday_roundtrip (ev : ParsedEvent) (uid : String)
    (hall : ev.start_time = none) (hv : ev.end_date.Valid) :
    (_event_body ev uid).gend = .gdate ev.end_date.nextDay ∧
    endDateInclOf (_event_body ev uid).gend = some ev.end_date := by
  have hbody : (_event_body ev uid).gend = .gdate ev.end_date.nextDay := by
    unfold _event_body
    rw [hall]
  refine ⟨hbody, ?_⟩
  rw [hbody]
  unfold endDateInclOf
  dsimp only
  rw [if_neg (Date.nextDay_ne_min ev.end_date hv)]
  rw [Date.prevDay_nextDay ev.end_date hv]

theorem c9_allday_roundtrip_witness :
    (_event_body ⟨"R", ⟨2024, 3, 1⟩, none, ⟨2024, 3, 3⟩, none, none, none⟩ "u").gend =
      .gdate (Date.nextDay ⟨2024, 3, 3⟩) ∧
    endDateInclOf (_event_body ⟨"R", ⟨2024, 3, 1⟩, none, ⟨2024, 3, 3⟩, none, none, none⟩ "u").gend =
      some ⟨2024, 3, 3⟩ :=
  c9_allday_roundtrip ⟨"R", ⟨2024, 3, 1⟩, none, ⟨2024, 3, 3⟩, none, none, none⟩ "u" rfl (by decide)

theorem c9_allday_concrete : Date.nextDay ⟨2024, 3, 3⟩ = ⟨2024, 3, 4⟩ := by decide

set_option maxRecDepth 100000

/-- C3 (failing input): the code's own comment documents `2-6pm` as a
supported time-range shape, and the spec requires `"2-6pm Meeting"` to
yield 14:00–18:00; but `_TIME_RANGE_RE` demands an explicit am/pm marker on
the LEFT token, so on `"2-6pm Meeting"` the range regex does not match and
the single-time regex picks up `6pm` instead: the code produces start
18:00, no end, and leaves the dangling `2-` in the summary.  The
explicit-marker cases `"2pm-6pm Meeting"` and `"8am Meeting"` behave as the
claim states. -/
theorem c3_ambiguous_left_range_eval :
    _strip_time_tokens "2-6pm Meeting".toList =
      .ok ("2- Meeting".toList, some ⟨18, 0⟩, none) ∧
    _strip_time_tokens "2pm-6pm Meeting".toList =
      .ok ("Meeting".toList, some ⟨14, 0⟩, some ⟨18, 0⟩) ∧
    _strip_time_tokens "8am Meeting".toList =
      .ok ("Meeting".toList, some ⟨8, 0⟩, none) := by
  refine ⟨?_, ?_, ?_⟩ <;> decide

/-- C10: time ranges are accepted with no ordering check between the two
endpoints — `"11pm-2pm X"` parses to start 23:00 and end 14:00 — and
payload construction emits the resulting end timestamp as-is, with no
check against the start timestamp: whenever both times are present the body
carries `start_date`/`start_time` and `end_date`/`end_time` verbatim, and
on the parsed example the emitted end (840 minutes) precedes the start
(1380 minutes) on the same day. -/
theorem c10_no_order_check :
    (_strip_time_tokens "11pm-2pm X".toList =
      .ok ("X".toList, some ⟨23, 0⟩, some ⟨14, 0⟩)) ∧
    (∀ (su : String) (sd ed : Date) (st et : TimeHM) (loc desc : Option String) (uid : String),
      _event_body ⟨su, sd, some st, ed, some et, loc, desc⟩ uid =
        ⟨su, uid, loc, desc, .gdatetime sd st.minutes, .gdatetime ed et.minutes⟩) ∧
    (_event_body ⟨"X", ⟨2024, 1, 5⟩, some ⟨23, 0⟩, ⟨2024, 1, 5⟩, some ⟨14, 0⟩, none, none⟩ "u" =
      ⟨"X", "u", none, none, .gdatetime ⟨2024, 1, 5⟩ 1380, .gdatetime ⟨2024, 1, 5⟩ 840⟩ ∧
      840 < 1380) := by
  refine ⟨by decide, fun su sd ed st et loc desc uid => rfl, by decide, by decide⟩

/-- C2 (counterexample): the claim that every `ParsedEvent` satisfies
`end_date >= start_date` is false — the parser performs no ordering check
on date-range lines, so `"5Mar-3Mar Retreat"` parses successfully into an
event whose end date (March 3) is strictly before its start date
(March 5). -/
theorem c2_counterexample :
    parse_mastercal_lines false 2024 ["5Mar-3Mar Retreat"] =
      .ok [⟨"Retreat", ⟨2024, 3, 5⟩, none, ⟨2024, 3, 3⟩, none, none,
        some "source_line=5Mar-3Mar Retreat"⟩] [] ∧
    Date.lt (⟨2024, 3, 3⟩ : Date) ⟨2024, 3, 5⟩ := by
  refine ⟨by decide, by decide⟩

/-- C6 (counterexample): the claim that in lenient mode every failing line
is recorded as a diagnostic and processing continues is false — a line
whose time token is out of range (`25pm`) raises a `ValueError` outside the
per-line error handling, aborting the whole parse: the valid `3Apr Dinner`
line is never returned and no diagnostic is produced. -/
theorem c6_counterexample :
    parse_mastercal_lines false 2024 ["12Mar 25pm Party", "3Apr Dinner"] =
      .raised (.outOfRange "25pm") := by
  decide

/-- The uid rendering `f"tg-{chat_id}-{h}@mastercal.local"` is injective in
the digest for a fixed chat id. -/
theorem mkUid_inj (c : Int) (h1 h2 : String) (he : mkUid c h1 = mkUid c h2) : h1 = h2 := by
  unfold mkUid at he
  have hd := congrArg String.data he
  simp only [String.data_append, List.append_assoc, List.cons_append, List.nil_append,
    List.cons.injEq, true_and] at hd
  have hd2 := List.append_cancel_left hd
  simp only [List.cons.injEq, true_and] at hd2
  exact String.ext (List.append_cancel_right hd2)

/-- C5: within one batch, two events with the same normalized summary but
different (start, end) date pairs feed different key dictionaries to the
digest, hence (absent a digest collision on those two keys) their current
identities differ; and an event whose normalized summary occurs exactly
once is not in the collision set, so its current identity is
string-identical to its legacy identity. -/
theorem c5_identity_collision (hash : UidKey → String) (chat_id : Int)
    (e1 e2 : ParsedEvent) (events : List ParsedEvent) :
    (_norm_summary e1.summary = _norm_summary e2.summary →
      ¬(e1.start_date = e2.start_date ∧ e1.end_date = e2.end_date) →
      (UidKey.collision (_norm_summary e1.summary) e1.start_date e1.end_date ≠
        UidKey.collision (_norm_summary e2.summary) e2.start_date e2.end_date) ∧
      (hash (.collision (_norm_summary e1.summary) e1.start_date e1.end_date) ≠
        hash (.collision (_norm_summary e2.summary) e2.start_date e2.end_date) →
        event_uid hash chat_id e1 true ≠ event_uid hash chat_id e2 true)) ∧
    (∀ e ∈ events,
      (events.map (fun x => _norm_summary x.summary)).count (_norm_summary e.summary) = 1 →
      _norm_summary e.summary ∉ collision_summaries events ∧
      event_uid hash chat_id e false = legacy_uid hash chat_id e) := by
  constructor
  · intro hsum hdates
    constructor
    · intro hkey
      injection hkey with a b c
      exact hdates ⟨b, c⟩
    · intro hhash huid
      unfold event_uid at huid
      simp only [Bool.not_true] at huid
      exact hhash (mkUid_inj chat_id _ _ huid)
  · intro e he hcount
    constructor
    · intro hmem
      unfold collision_summaries at hmem
      simp only [List.mem_filter, List.mem_dedup, decide_eq_true_eq] at hmem
      omega
    · unfold event_uid
      simp

theorem c5_identity_collision_witness :
    (UidKey.collision (_norm_summary cxE1.summary) cxE1.start_date cxE1.end_date ≠
      UidKey.collision (_norm_summary cxE2.summary) cxE2.start_date cxE2.end_date) ∧
    (event_uid testHash 7 cxE1 true ≠ event_uid testHash 7 cxE2 true) ∧
    (_norm_summary wEv.summary ∉ collision_summaries [wEv] ∧
      event_uid testHash 7 wEv false = legacy_uid testHash 7 wEv) := by
  have h := c5_identity_collision testHash 7 cxE1 cxE2 [wEv]
  have h1 := h.1 (by decide) (by decide)
  exact ⟨h1.1, h1.2 (by decide), h.2 wEv (by decide) (by decide)⟩

/-- C7: on an insert failing with a 409 duplicate conflict the engine re-runs
the identity lookup exactly once (the call trace shows precisely two lookups
of the same uid): a found record is updated, or revived when cancelled, and
the event succeeds; if the re-lookup finds nothing the 409 is re-raised as
fatal; and a non-409 insert failure propagates with no retry (exactly one
lookup, no update, no patch). -/
theorem c7_conflict_retry (hash : UidKey → String) (chat_id : Int) (ev : ParsedEvent)
    (r2 : Option GRecord) (es : EngineSt) (c : Nat) :
    (processEvent oracleSvc hash chat_id [] ev es
        ⟨[none, r2], [.error 409], [], [], [], []⟩).st.findLog =
      [event_uid hash chat_id ev false, event_uid hash chat_id ev false] ∧
    (processEvent oracleSvc hash chat_id [] ev es
        ⟨[none, r2], [.error 409], [], [], [], []⟩).st.insertLog =
      [_event_body ev (event_uid hash chat_id ev false)] ∧
    (∀ r, r2 = some r →
      (processEvent oracleSvc hash chat_id [] ev es
          ⟨[none, r2], [.error 409], [], [], [], []⟩).res = .ok () ∧
      (r.status = "cancelled" →
        (processEvent oracleSvc hash chat_id [] ev es
            ⟨[none, r2], [.error 409], [], [], [], []⟩).st.patchLog =
          [(r.id, patchBody (_event_body ev (event_uid hash chat_id ev false)))] ∧
        (processEvent oracleSvc hash chat_id [] ev es
            ⟨[none, r2], [.error 409], [], [], [], []⟩).st.updateLog = []) ∧
      (r.status ≠ "cancelled" →
        (processEvent oracleSvc hash chat_id [] ev es
            ⟨[none, r2], [.error 409], [], [], [], []⟩).st.updateLog =
          [(r.id, _event_body ev (event_uid hash chat_id ev false))] ∧
        (processEvent oracleSvc hash chat_id [] ev es
            ⟨[none, r2], [.error 409], [], [], [], []⟩).st.patchLog = [])) ∧
    (r2 = none →
      (processEvent oracleSvc hash chat_id [] ev es
          ⟨[none, r2], [.error 409], [], [], [], []⟩).res = .error 409 ∧
      (processEvent oracleSvc hash chat_id [] ev es
          ⟨[none, r2], [.error 409], [], [], [], []⟩).st.updateLog = [] ∧
      (processEvent oracleSvc hash chat_id [] ev es
          ⟨[none, r2], [.error 409], [], [], [], []⟩).st.patchLog = []) ∧
    (c ≠ 409 →
      (processEvent oracleSvc hash chat_id [] ev es
          ⟨[none], [.error c], [], [], [], []⟩).res = .error c ∧
      (processEvent oracleSvc hash chat_id [] ev es
          ⟨[none], [.error c], [], [], [], []⟩).st.findLog =
        [event_uid hash chat_id ev false] ∧
      (processEvent oracleSvc hash chat_id [] ev es
          ⟨[none], [.error c], [], [], [], []⟩).st.updateLog = [] ∧
      (processEvent oracleSvc hash chat_id [] ev es
          ⟨[none], [.error c], [], [], [], []⟩).st.patchLog = []) := by
  unfold processEvent insertStep oracleSvc
  refine ⟨?_, ?_, ?_, ?_, ?_⟩
  · cases r2 <;> simp <;> split <;> simp
  · cases r2 <;> simp <;> split <;> simp
  · intro r hr
    subst hr
    by_cases hc : r.status = "cancelled" <;> simp [hc]
  · intro hr
    subst hr
    simp
  · intro hc
    simp [hc]

theorem c7_conflict_retry_witness :
    (processEvent oracleSvc testHash 7 [] wEv ⟨[], []⟩
        ⟨[none, some ⟨5, "confirmed", "u", "S", none, none, .gmissing, .gmissing⟩],
          [.error 409], [], [], [], []⟩).st.findLog =
      [event_uid testHash 7 wEv false, event_uid testHash 7 wEv false] ∧
    (processEvent oracleSvc testHash 7 [] wEv ⟨[], []⟩
        ⟨[none, some ⟨5, "confirmed", "u", "S", none, none, .gmissing, .gmissing⟩],
          [.error 409], [], [], [], []⟩).res = .ok () ∧
    (processEvent oracleSvc testHash 7 [] wEv ⟨[], []⟩
        ⟨[none], [.error 500], [], [], [], []⟩).res = .error 500 := by
  have h := c7_conflict_retry testHash 7 wEv
    (some ⟨5, "confirmed", "u", "S", none, none, .gmissing, .gmissing⟩) ⟨[], []⟩ 500
  exact ⟨h.1, (h.2.2.1 _ rfl).1, (h.2.2.2.2 (by decide)).1⟩

/-- Accumulator lemma for the line loop: the events and diagnostics
gathered so far are a frame around the run started from empty
accumulators. -/
theorem runLines_acc (lines : List String) : ∀ (strict : Bool) (y i : Nat)
    (evs : List ParsedEvent) (errs : List Diag),
    runLines strict ⟨y, i, evs, errs⟩ lines =
      (runLines strict ⟨y, i, [], []⟩ lines).map
        (fun st' => ⟨st'.year, st'.idx, evs ++ st'.events, errs ++ st'.errors⟩) := by
  induction lines with
  | nil => intro strict y i evs errs; simp [runLines, Except.map]
  | cons l ls ih =>
    intro strict y i evs errs
    simp only [runLines]
    cases hpl : parseLine y l with
    | skip =>
      dsimp only
      rw [ih strict y (i + 1) evs errs]
    | setYear y' =>
      dsimp only
      rw [ih strict y' (i + 1) evs errs]
    | event e =>
      dsimp only
      rw [ih strict y (i + 1) (evs ++ [e]) errs, ih strict y (i + 1) ([] ++ [e]) []]
      cases hb : runLines strict ⟨y, i + 1, [], []⟩ ls <;> simp [Except.map]
    | diag k =>
      dsimp only
      cases strict with
      | true => simp [Except.map]
      | false =>
        simp only [Bool.false_eq_true, if_false]
        rw [ih false y (i + 1) evs (errs ++ [(⟨i + 1, k, l⟩ : Diag)]),
          ih false y (i + 1) [] ([] ++ [(⟨i + 1, k, l⟩ : Diag)])]
        cases hb : runLines false ⟨y, i + 1, [], []⟩ ls <;> simp [Except.map]
    | crash e =>
      dsimp only
      simp [Except.map]

/-- A successful line-loop run only ever appends diagnostics. -/
theorem runLines_ok_errors (strict : Bool) (lines : List String) (y i : Nat)
    (evs : List ParsedEvent) (errs : List Diag) (st' : PState)
    (h : runLines strict ⟨y, i, evs, errs⟩ lines = .ok st') :
    ∃ R, st'.errors = errs ++ R := by
  rw [runLines_acc] at h
  cases hb : runLines strict ⟨y, i, [], []⟩ lines with
  | ok base =>
    rw [hb] at h
    simp only [Except.map, Except.ok.injEq] at h
    exact ⟨base.errors, by rw [← h]⟩
  | error e =>
    rw [hb] at h
    simp [Except.map] at h

/-- Composition of the line loop over an append, provided the first part
produced no diagnostic (so no strict-mode break can have occurred). -/
theorem runLines_append_clean (xs : List String) : ∀ (ys : List String) (strict : Bool)
    (st st' : PState), runLines strict st xs = .ok st' → st'.errors = st.errors →
    runLines strict st (xs ++ ys) = runLines strict st' ys := by
  induction xs with
  | nil =>
    intro ys strict st st' h _
    simp only [runLines, Except.ok.injEq] at h
    subst h
    simp
  | cons l ls ih =>
    intro ys strict st st' h hcl
    obtain ⟨y, i, evs, errs⟩ := st
    simp only [List.cons_append, runLines] at h ⊢
    cases hpl : parseLine y l <;> rw [hpl] at h <;> dsimp only at h hcl ⊢
    case skip => exact ih ys strict _ st' h hcl
    case setYear => exact ih ys strict _ st' h hcl
    case event e => exact ih ys strict _ st' h hcl
    case diag k =>
      cases strict with
      | true =>
        simp only [if_true] at h ⊢
        cases h
        have : errs ++ [(⟨i + 1, k, l⟩ : Diag)] = errs := hcl
        have hlen := congrArg List.length this
        simp at hlen
      | false =>
        simp only [Bool.false_eq_true, if_false] at h ⊢
        obtain ⟨R, hR⟩ := runLines_ok_errors false ls y (i + 1) evs
          (errs ++ [(⟨i + 1, k, l⟩ : Diag)]) st' h
        rw [hcl] at hR
        have hlen := congrArg List.length hR
        simp at hlen
    case crash e => cases h

/-- On a prefix that produces no diagnostic, the strict and lenient runs
agree. -/
theorem runLines_strict_of_clean (xs : List String) : ∀ (st st' : PState),
    runLines false st xs = .ok st' → st'.errors = st.errors →
    runLines true st xs = .ok st' := by
  induction xs with
  | nil => intro st st' h _; exact h
  | cons l ls ih =>
    intro st st' h hcl
    obtain ⟨y, i, evs, errs⟩ := st
    simp only [runLines] at h ⊢
    cases hpl : parseLine y l <;> rw [hpl] at h <;> dsimp only at h hcl ⊢
    case skip => exact ih _ st' h hcl
    case setYear => exact ih _ st' h hcl
    case event e => exact ih _ st' h hcl
    case diag k =>
      simp only [Bool.false_eq_true, if_false] at h
      obtain ⟨R, hR⟩ := runLines_ok_errors false ls y (i + 1) evs
        (errs ++ [(⟨i + 1, k, l⟩ : Diag)]) st' h
      rw [hcl] at hR
      have hlen := congrArg List.length hR
      simp at hlen
    case crash e => cases h

/-- C6 (amended): for a batch consisting of diagnostic-clean lines around
one line that fails with a parse diagnostic (a bad date, an empty summary,
or an unrecognized shape): in lenient mode the failing line is recorded as
the single diagnostic and every event from the lines that parse is
returned; in strict mode the first diagnostic stops consumption of all
further lines and the whole operation fails with only that diagnostic,
returning no events.  (Unlike these diagnostics, an out-of-range time
token raises an uncaught `ValueError` and aborts both modes; see the
counterexample.) -/
theorem c6_strict_lenient (y : Nat) (pre post : List String) (bad : String)
    (y₁ i₁ y₂ i₂ : Nat) (evs₁ evs₂ : List ParsedEvent) (k : DiagKind)
    (hpre : runLines false ⟨y, 0, [], []⟩ pre = .ok ⟨y₁, i₁, evs₁, []⟩)
    (hbad : parseLine y₁ bad = .diag k)
    (hpost : runLines false ⟨y₁, i₁ + 1, [], []⟩ post = .ok ⟨y₂, i₂, evs₂, []⟩) :
    parse_mastercal_lines false y (pre ++ bad :: post) =
      .ok (evs₁ ++ evs₂) [⟨i₁ + 1, k, bad⟩] ∧
    parse_mastercal_lines true y (pre ++ bad :: post) =
      .strictFail [⟨i₁ + 1, k, bad⟩] := by
  constructor
  · unfold parse_mastercal_lines
    rw [runLines_append_clean pre (bad :: post) false _ _ hpre rfl]
    simp only [runLines]
    rw [hbad]
    dsimp only
    simp only [Bool.false_eq_true, if_false, List.nil_append]
    rw [runLines_acc post false y₁ (i₁ + 1) evs₁ [(⟨i₁ + 1, k, bad⟩ : Diag)], hpost]
    simp [Except.map]
  · unfold parse_mastercal_lines
    have hpre' := runLines_strict_of_clean pre _ _ hpre rfl
    rw [runLines_append_clean pre (bad :: post) true _ _ hpre' rfl]
    simp only [runLines]
    rw [hbad]
    dsimp only
    simp

theorem c6_strict_lenient_witness :
    parse_mastercal_lines false 2025 (["2024", "3Apr Dinner"] ++ "garbage" :: ["5May Lunch"]) =
      .ok ([⟨"Dinner", ⟨2024, 4, 3⟩, none, ⟨2024, 4, 3⟩, none, none,
          some "source_line=3Apr Dinner"⟩] ++
        [⟨"Lunch", ⟨2024, 5, 5⟩, none, ⟨2024, 5, 5⟩, none, none,
          some "source_line=5May Lunch"⟩]) [⟨3, .unrecognized, "garbage"⟩] ∧
    parse_mastercal_lines true 2025 (["2024", "3Apr Dinner"] ++ "garbage" :: ["5May Lunch"]) =
      .strictFail [⟨3, .unrecognized, "garbage"⟩] :=
  c6_strict_lenient 2025 ["2024", "3Apr Dinner"] ["5May Lunch"] "garbage" 2024 2 2024 4
    [⟨"Dinner", ⟨2024, 4, 3⟩, none, ⟨2024, 4, 3⟩, none, none, some "source_line=3Apr Dinner"⟩]
    [⟨"Lunch", ⟨2024, 5, 5⟩, none, ⟨2024, 5, 5⟩, none, none, some "source_line=5May Lunch"⟩]
    .unrecognized (by decide) (by decide) (by decide)

/-- The shared event-building tail copies the two parsed dates verbatim
into the event. -/
theorem buildEvent_dates (sd ed : Date) (rest line : List Char) (e : ParsedEvent)
    (h : buildEvent sd ed rest line = .event e) :
    e.start_date = sd ∧ e.end_date = ed := by
  unfold buildEvent at h
  dsimp only at h
  cases hst : _strip_time_tokens (_split_location (trimC rest)).1 with
  | error e' => rw [hst] at h; cases h
  | ok out =>
    rw [hst] at h
    obtain ⟨summary, st, et⟩ := out
    dsimp only at h
    split at h
    · cases h
    · cases h
      exact ⟨rfl, rfl⟩

/-- Every event a single line produces either has `end_date = start_date`
(single-date lines) or carries exactly the two endpoint dates of a
date-range line, in the order they were written, with no ordering check
between them. -/
theorem parseLine_event_shape (y : Nat) (line : String) (e : ParsedEvent)
    (h : parseLine y line = .event e) :
    e.end_date = e.start_date ∨
    ∃ d1 m1 d2 m2 rest, matchDateRange (trimC line.toList) = some (d1, m1, d2, m2, rest) ∧
      _to_date y d1 m1 = some e.start_date ∧ _to_date y d2 m2 = some e.end_date := by
  unfold parseLine at h
  dsimp only at h
  split at h
  · exact absurd h (by simp)
  · split at h
    · exact absurd h (by simp)
    · split at h
      · exact absurd h (by simp)
      · split at h
        case _ d1 m1 d2 m2 rest heq =>
          split at h
          case _ sd ed hsd hed =>
            obtain ⟨h1, h2⟩ := buildEvent_dates sd ed rest _ e h
            exact Or.inr ⟨d1, m1, d2, m2, rest, heq, by rw [h1]; exact hsd, by rw [h2]; exact hed⟩
          case _ => exact absurd h (by simp)
        case _ hnone =>
          split at h
          case _ d m rest heq =>
            split at h
            case _ sd hsd =>
              obtain ⟨h1, h2⟩ := buildEvent_dates sd sd rest _ e h
              exact Or.inl (h2.trans h1.symm)
            case _ => exact absurd h (by simp)
          case _ => exact absurd h (by simp)

/-- Every event delivered by the line loop stems from `parseLine` on some
input line (under some ambient year). -/
theorem runLines_event_source (lines : List String) : ∀ (strict : Bool) (st st' : PState),
    runLines strict st lines = .ok st' → ∀ e ∈ st'.events,
      e ∈ st.events ∨ ∃ y' line, line ∈ lines ∧ parseLine y' line = .event e := by
  induction lines with
  | nil =>
    intro strict st st' h e he
    simp only [runLines, Except.ok.injEq] at h
    subst h
    exact Or.inl he
  | cons l ls ih =>
    intro strict st st' h e he
    obtain ⟨y, i, evs, errs⟩ := st
    simp only [runLines] at h
    cases hpl : parseLine y l <;> rw [hpl] at h <;> dsimp only at h
    case skip =>
      rcases ih strict _ st' h e he with hl | ⟨y', line, hmem, hev⟩
      · exact Or.inl hl
      · exact Or.inr ⟨y', line, List.mem_cons_of_mem l hmem, hev⟩
    case setYear y' =>
      rcases ih strict _ st' h e he with hl | ⟨y'', line, hmem, hev⟩
      · exact Or.inl hl
      · exact Or.inr ⟨y'', line, List.mem_cons_of_mem l hmem, hev⟩
    case event e₀ =>
      rcases ih strict _ st' h e he with hl | ⟨y', line, hmem, hev⟩
      · rcases List.mem_append.mp hl with hl' | hl'
        · exact Or.inl hl'
        · simp only [List.mem_singleton] at hl'
          subst hl'
          exact Or.inr ⟨y, l, List.mem_cons_self l ls, hpl⟩
      · exact Or.inr ⟨y', line, List.mem_cons_of_mem l hmem, hev⟩
    case diag k =>
      cases strict with
      | true =>
        simp only [if_true, Except.ok.injEq] at h
        subst h
        exact Or.inl he
      | false =>
        simp only [Bool.false_eq_true, if_false] at h
        rcases ih false _ st' h e he with hl | ⟨y', line, hmem, hev⟩
        · exact Or.inl hl
        · exact Or.inr ⟨y', line, List.mem_cons_of_mem l hmem, hev⟩
    case crash e' => cases h

/-- C2 (amended): every `ParsedEvent` leaving the Schedule Parser either has
`end_date = start_date` (single-date lines) or carries, in written order
and with no ordering check, the two endpoint dates of the date-range line
it came from — so `end_date >= start_date` holds exactly when the line's
second endpoint does not precede its first (in particular it can fail,
see the counterexample). -/
theorem c2_event_dates (strict : Bool) (y : Nat) (lines : List String)
    (evs : List ParsedEvent) (ws : List Diag)
    (h : parse_mastercal_lines strict y lines = .ok evs ws) :
    ∀ e ∈ evs, e.end_date = e.start_date ∨
      ∃ y' line d1 m1 d2 m2 rest, line ∈ lines ∧
        matchDateRange (trimC line.toList) = some (d1, m1, d2, m2, rest) ∧
        _to_date y' d1 m1 = some e.start_date ∧ _to_date y' d2 m2 = some e.end_date := by
  intro e he
  unfold parse_mastercal_lines at h
  cases hr : runLines strict ⟨y, 0, [], []⟩ lines with
  | error e' => rw [hr] at h; cases h
  | ok st =>
    rw [hr] at h
    dsimp only at h
    split at h
    · cases h
    · cases h
      rcases runLines_event_source lines strict _ st hr e he with hl | ⟨y', line, hmem, hev⟩
      · simp at hl
      · rcases parseLine_event_shape y' line e hev with heq | ⟨d1, m1, d2, m2, rest, hm, h1, h2⟩
        · exact Or.inl heq
        · exact Or.inr ⟨y', line, d1, m1, d2, m2, rest, hmem, hm, h1, h2⟩

theorem c2_event_dates_witness :
    (⟨"Retreat", ⟨2024, 3, 5⟩, none, ⟨2024, 3, 3⟩, none, none,
        some "source_line=5Mar-3Mar Retreat"⟩ : ParsedEvent).end_date =
      (⟨"Retreat", ⟨2024, 3, 5⟩, none, ⟨2024, 3, 3⟩, none, none,
        some "source_line=5Mar-3Mar Retreat"⟩ : ParsedEvent).start_date ∨
    ∃ y' line d1 m1 d2 m2 rest, line ∈ ["5Mar-3Mar Retreat"] ∧
      matchDateRange (trimC line.toList) = some (d1, m1, d2, m2, rest) ∧
      _to_date y' d1 m1 = some (⟨2024, 3, 5⟩ : Date) ∧
      _to_date y' d2 m2 = some (⟨2024, 3, 3⟩ : Date) :=
  c2_event_dates false 2024 ["5Mar-3Mar Retreat"]
    [⟨"Retreat", ⟨2024, 3, 5⟩, none, ⟨2024, 3, 3⟩, none, none,
      some "source_line=5Mar-3Mar Retreat"⟩] [] (by decide) _ (by decide)

theorem gfind_eq_none (st : GCalState) (u : String) :
    (gfind st u).1 = none ↔ ∀ r ∈ st.recs, r.icalUID ≠ u := by
  unfold gfind
  dsimp only
  constructor
  · intro h
    cases hfind : ((st.recs.filter (fun r => r.icalUID == u)).take 5).find?
        (fun r => !(r.status == "cancelled")) with
    | some r => rw [hfind] at h; cases h
    | none =>
      rw [hfind] at h
      have hnil : (st.recs.filter (fun r => r.icalUID == u)).take 5 = [] :=
        List.head?_eq_none_iff.mp h
      have hfil : st.recs.filter (fun r => r.icalUID == u) = [] := by
        rcases List.take_eq_nil_iff.mp hnil with h5 | hf
        · omega
        · exact hf
      intro r hr hu
      have : r ∈ st.recs.filter (fun r => r.icalUID == u) :=
        List.mem_filter.mpr ⟨hr, by simp [hu]⟩
      rw [hfil] at this
      cases this
  · intro h
    have hfil : st.recs.filter (fun r => r.icalUID == u) = [] := by
      rw [List.filter_eq_nil_iff]
      intro r hr
      simp [h r hr]
    rw [hfil]
    rfl

theorem gfind_eq_some (st : GCalState) (u : String) (r : GRecord)
    (h : (gfind st u).1 = some r) : r ∈ st.recs ∧ r.icalUID = u := by
  unfold gfind at h
  dsimp only at h
  have hmem : r ∈ (st.recs.filter (fun r => r.icalUID == u)).take 5 := by
    cases hfind : ((st.recs.filter (fun r => r.icalUID == u)).take 5).find?
        (fun r => !(r.status == "cancelled")) with
    | some r' =>
      rw [hfind] at h
      cases h
      exact List.mem_of_find?_eq_some hfind
    | none =>
      rw [hfind] at h
      cases hl : (st.recs.filter (fun r => r.icalUID == u)).take 5 with
      | nil => rw [hl] at h; cases h
      | cons a t =>
        rw [hl] at h
        cases h
        first
        | exact List.mem_cons_self _ _
        | (rw [hl]; exact List.mem_cons_self _ _)
  have hmem' := List.mem_of_mem_take hmem
  have := List.mem_filter.mp hmem'
  exact ⟨this.1, by simpa using this.2⟩

theorem _event_body_icalUID (ev : ParsedEvent) (u : String) :
    (_event_body ev u).icalUID = u := by
  unfold _event_body
  cases ev.start_time <;> rfl

/-- Insert after a fresh lookup: the deterministic provider accepts it and
appends the record. -/
theorem insertStep_fresh (uid : String) (body : GBody) (es : EngineSt)
    (st : GCalState) (pre : List EAct) (hb : body.icalUID = uid)
    (hn : ∀ r ∈ st.recs, r.icalUID ≠ uid) :
    insertStep gcalSvc uid body es st pre =
      ⟨.ok (), pre ++ [.insert uid], es,
        ⟨st.recs ++ [recordOfBody st.nextId body], st.nextId + 1⟩⟩ := by
  have hany : st.recs.any (fun r => r.icalUID == body.icalUID) = false := by
    rw [List.any_eq_false]
    intro r hr
    simp [hb, hn r hr]
  have hins : gcalSvc.insert st body =
      (Except.ok (), ⟨st.recs ++ [recordOfBody st.nextId body], st.nextId + 1⟩) := by
    show ginsert st body = _
    unfold ginsert
    rw [hany]
    rfl
  unfold insertStep
  dsimp only
  rw [hins]

/-- Reduction of the legacy branch when the cache already holds a record
for this summary. -/
theorem legacyStep_hit (hash : UidKey → String) (chat_id : Int)
    (ev : ParsedEvent) (es : EngineSt) (st : GCalState) (litem : GRecord)
    (uid : String) (body : GBody)
    (hcache : es.legacyCache.lookup (_norm_summary ev.summary) = some (some litem)) :
    legacyStep gcalSvc hash chat_id ev (_norm_summary ev.summary) uid body es st =
      (if litem.id ∉ usedFor es (_norm_summary ev.summary) ∧
          _item_start_date litem = some ev.start_date ∧
          (_item_end_date_inclusive litem = none ∨
            _item_end_date_inclusive litem = some ev.end_date) then
        (if litem.status = "cancelled" then
          ⟨.ok (), [EAct.legacy_revive litem.id],
            ⟨es.legacyCache, (_norm_summary ev.summary,
              litem.id :: usedFor es (_norm_summary ev.summary)) :: es.legacyUsed⟩,
            gpatch st litem.id (patchBody (_event_body ev (legacy_uid hash chat_id ev)))⟩
        else
          ⟨.ok (), [EAct.legacy_update litem.id],
            ⟨es.legacyCache, (_norm_summary ev.summary,
              litem.id :: usedFor es (_norm_summary ev.summary)) :: es.legacyUsed⟩,
            gupdate st litem.id (_event_body ev (legacy_uid hash chat_id ev))⟩)
      else insertStep gcalSvc uid body es st []) := by
  unfold legacyStep
  dsimp only
  rw [hcache]
  dsimp only
  rw [hcache]
  dsimp only [Option.join]
  rfl

theorem legacyStep_hit_none (hash : UidKey → String) (chat_id : Int)
    (ev : ParsedEvent) (es : EngineSt) (st : GCalState) (uid : String) (body : GBody)
    (hcache : es.legacyCache.lookup (_norm_summary ev.summary) = some none) :
    legacyStep gcalSvc hash chat_id ev (_norm_summary ev.summary) uid body es st =
      insertStep gcalSvc uid body es st [] := by
  unfold legacyStep
  dsimp only
  rw [hcache]
  dsimp only
  rw [hcache]
  rfl

theorem legacyStep_miss (hash : UidKey → String) (chat_id : Int)
    (ev : ParsedEvent) (es : EngineSt) (st : GCalState) (uid : String) (body : GBody)
    (hcache : es.legacyCache.lookup (_norm_summary ev.summary) = none) :
    legacyStep gcalSvc hash chat_id ev (_norm_summary ev.summary) uid body es st =
      (match (gfind st (legacy_uid hash chat_id ev)).1 with
       | some litem =>
         if litem.id ∉ usedFor es (_norm_summary ev.summary) ∧
             _item_start_date litem = some ev.start_date ∧
             (_item_end_date_inclusive litem = none ∨
               _item_end_date_inclusive litem = some ev.end_date) then
           (if litem.status = "cancelled" then
             ⟨.ok (), [EAct.legacy_lookup (_norm_summary ev.summary),
                 EAct.legacy_revive litem.id],
               ⟨(_norm_summary ev.summary, some litem) :: es.legacyCache,
                 (_norm_summary ev.summary,
                   litem.id :: usedFor es (_norm_summary ev.summary)) :: es.legacyUsed⟩,
               gpatch st litem.id (patchBody (_event_body ev (legacy_uid hash chat_id ev)))⟩
           else
             ⟨.ok (), [EAct.legacy_lookup (_norm_summary ev.summary),
                 EAct.legacy_update litem.id],
               ⟨(_norm_summary ev.summary, some litem) :: es.legacyCache,
                 (_norm_summary ev.summary,
                   litem.id :: usedFor es (_norm_summary ev.summary)) :: es.legacyUsed⟩,
               gupdate st litem.id (_event_body ev (legacy_uid hash chat_id ev))⟩)
         else
           insertStep gcalSvc uid body
             ⟨(_norm_summary ev.summary, some litem) :: es.legacyCache, es.legacyUsed⟩ st
             [EAct.legacy_lookup (_norm_summary ev.summary)]
       | none =>
         insertStep gcalSvc uid body
           ⟨(_norm_summary ev.summary, none) :: es.legacyCache, es.legacyUsed⟩ st
           [EAct.legacy_lookup (_norm_summary ev.summary)]) := by
  unfold legacyStep
  dsimp only [gcalSvc]
  rw [hcache]
  dsimp only
  cases hli : (gfind st (legacy_uid hash chat_id ev)).1 with
  | none =>
    have hlk : List.lookup (_norm_summary ev.summary)
        ((_norm_summary ev.summary, (none : Option GRecord)) :: es.legacyCache) =
          some none := by
      simp [List.lookup]
    rw [hlk]
    rfl
  | some litem =>
    have hlk : List.lookup (_norm_summary ev.summary)
        ((_norm_summary ev.summary, some litem) :: es.legacyCache) = some (some litem) := by
      simp [List.lookup]
    rw [hlk]
    rfl

theorem processEvent_eq_found (hash : UidKey → String) (chat_id : Int)
    (colliders : List String) (ev : ParsedEvent) (es : EngineSt) (st : GCalState)
    (item : GRecord)
    (hfind : (gfind st (event_uid hash chat_id ev
      (colliders.contains (_norm_summary ev.summary)))).1 = some item) :
    processEvent gcalSvc hash chat_id colliders ev es st =
      (if item.status = "cancelled" then
        ⟨.ok (), [.found_revive item.id], es, gpatch st item.id
          (patchBody (_event_body ev (event_uid hash chat_id ev
            (colliders.contains (_norm_summary ev.summary)))))⟩
      else
        ⟨.ok (), [.found_update item.id], es, gupdate st item.id
          (_event_body ev (event_uid hash chat_id ev
            (colliders.contains (_norm_summary ev.summary))))⟩) := by
  unfold processEvent
  dsimp only
  show (match (gfind st (event_uid hash chat_id ev
      (colliders.contains (_norm_summary ev.summary)))).1 with
    | some item => _
    | none => _) = _
  rw [hfind]
  rfl

theorem processEvent_eq_nofind_nocollide (hash : UidKey → String) (chat_id : Int)
    (colliders : List String) (ev : ParsedEvent) (es : EngineSt) (st : GCalState)
    (hcol : colliders.contains (_norm_summary ev.summary) = false)
    (hfind : (gfind st (event_uid hash chat_id ev false)).1 = none) :
    processEvent gcalSvc hash chat_id colliders ev es st =
      insertStep gcalSvc (event_uid hash chat_id ev false)
        (_event_body ev (event_uid hash chat_id ev false)) es st [] := by
  unfold processEvent
  dsimp only
  rw [hcol]
  show (match (gfind st (event_uid hash chat_id ev false)).1 with
    | some item => _
    | none => _) = _
  rw [hfind]
  rfl

theorem processEvent_eq_nofind_collide (hash : UidKey → String) (chat_id : Int)
    (colliders : List String) (ev : ParsedEvent) (es : EngineSt) (st : GCalState)
    (hcol : colliders.contains (_norm_summary ev.summary) = true)
    (hfind : (gfind st (event_uid hash chat_id ev true)).1 = none) :
    processEvent gcalSvc hash chat_id colliders ev es st =
      legacyStep gcalSvc hash chat_id ev (_norm_summary ev.summary)
        (event_uid hash chat_id ev true)
        (_event_body ev (event_uid hash chat_id ev true)) es st := by
  unfold processEvent
  dsimp only
  rw [hcol]
  show (match (gfind st (event_uid hash chat_id ev true)).1 with
    | some item => _
    | none => _) = _
  rw [hfind]
  rfl

theorem c8_step (hash : UidKey → String) (chat_id : Int) (colliders : List String)
    (ev : ParsedEvent) (es : EngineSt) (st : GCalState)
    (hc : colliders.contains (_norm_summary ev.summary) = true)
    (hn : (gfind st (event_uid hash chat_id ev true)).1 = none) :
    ((∃ eid, EAct.legacy_update eid ∈
        (processEvent gcalSvc hash chat_id colliders ev es st).log ∨
      EAct.legacy_revive eid ∈ (processEvent gcalSvc hash chat_id colliders ev es st).log) ↔
      (∃ r, (match es.legacyCache.lookup (_norm_summary ev.summary) with
              | some v => v
              | none => (gfind st (legacy_uid hash chat_id ev)).1) = some r ∧
        r.id ∉ usedFor es (_norm_summary ev.summary) ∧
        _item_start_date r = some ev.start_date ∧
        (_item_end_date_inclusive r = none ∨ _item_end_date_inclusive r = some ev.end_date))) ∧
    (∀ r, (match es.legacyCache.lookup (_norm_summary ev.summary) with
            | some v => v
            | none => (gfind st (legacy_uid hash chat_id ev)).1) = some r →
      r.id ∉ usedFor es (_norm_summary ev.summary) →
      _item_start_date r = some ev.start_date →
      (_item_end_date_inclusive r = none ∨ _item_end_date_inclusive r = some ev.end_date) →
      (processEvent gcalSvc hash chat_id colliders ev es st).res = .ok () ∧
      usedFor (processEvent gcalSvc hash chat_id colliders ev es st).es
          (_norm_summary ev.summary) =
        r.id :: usedFor es (_norm_summary ev.summary) ∧
      (r.status = "cancelled" →
        (processEvent gcalSvc hash chat_id colliders ev es st).log =
          (match es.legacyCache.lookup (_norm_summary ev.summary) with
            | some _ => [] | none => [EAct.legacy_lookup (_norm_summary ev.summary)]) ++
            [.legacy_revive r.id] ∧
        (processEvent gcalSvc hash chat_id colliders ev es st).st =
          gpatch st r.id (patchBody (_event_body ev (legacy_uid hash chat_id ev)))) ∧
      (r.status ≠ "cancelled" →
        (processEvent gcalSvc hash chat_id colliders ev es st).log =
          (match es.legacyCache.lookup (_norm_summary ev.summary) with
            | some _ => [] | none => [EAct.legacy_lookup (_norm_summary ev.summary)]) ++
            [.legacy_update r.id] ∧
        (processEvent gcalSvc hash chat_id colliders ev es st).st =
          gupdate st r.id (_event_body ev (legacy_uid hash chat_id ev)))) ∧
    ((∀ r, (match es.legacyCache.lookup (_norm_summary ev.summary) with
            | some v => v
            | none => (gfind st (legacy_uid hash chat_id ev)).1) = some r →
      ¬(r.id ∉ usedFor es (_norm_summary ev.summary) ∧
        _item_start_date r = some ev.start_date ∧
        (_item_end_date_inclusive r = none ∨ _item_end_date_inclusive r = some ev.end_date))) →
      (processEvent gcalSvc hash chat_id colliders ev es st).res = .ok () ∧
      (processEvent gcalSvc hash chat_id colliders ev es st).log =
        (match es.legacyCache.lookup (_norm_summary ev.summary) with
          | some _ => [] | none => [EAct.legacy_lookup (_norm_summary ev.summary)]) ++
          [.insert (event_uid hash chat_id ev true)] ∧
      (processEvent gcalSvc hash chat_id colliders ev es st).st =
        ⟨st.recs ++ [recordOfBody st.nextId
          (_event_body ev (event_uid hash chat_id ev true))], st.nextId + 1⟩) := by
  have hn' := (gfind_eq_none st (event_uid hash chat_id ev true)).mp hn
  rw [processEvent_eq_nofind_collide hash chat_id colliders ev es st hc hn]
  cases hcache : es.legacyCache.lookup (_norm_summary ev.summary) with
  | some v =>
    cases v with
    | none =>
      rw [legacyStep_hit_none hash chat_id ev es st _ _ hcache,
        insertStep_fresh _ _ _ _ _ (_event_body_icalUID ev _) hn']
      refine ⟨?_, ?_, ?_⟩
      · constructor
        · rintro ⟨eid, hmem | hmem⟩ <;> simp at hmem
        · rintro ⟨r, hr, -⟩; cases hr
      · intro r hr; cases hr
      · intro _; exact ⟨rfl, rfl, rfl⟩
    | some litem =>
      rw [legacyStep_hit hash chat_id ev es st litem _ _ hcache]
      by_cases hcond : litem.id ∉ usedFor es (_norm_summary ev.summary) ∧
          _item_start_date litem = some ev.start_date ∧
          (_item_end_date_inclusive litem = none ∨
            _item_end_date_inclusive litem = some ev.end_date)
      · rw [if_pos hcond]
        by_cases hst : litem.status = "cancelled"
        · rw [if_pos hst]
          refine ⟨?_, ?_, ?_⟩
          · constructor
            · intro _; exact ⟨litem, rfl, hcond.1, hcond.2.1, hcond.2.2⟩
            · intro _; exact ⟨litem.id, Or.inr (by simp)⟩
          · rintro r hr h1 h2 h3
            cases hr
            refine ⟨rfl, ?_, fun _ => ⟨rfl, rfl⟩, fun hne => absurd hst hne⟩
            unfold usedFor
            simp [List.lookup]
          · intro hno
            exact absurd hcond (hno litem rfl)
        · rw [if_neg hst]
          refine ⟨?_, ?_, ?_⟩
          · constructor
            · intro _; exact ⟨litem, rfl, hcond.1, hcond.2.1, hcond.2.2⟩
            · intro _; exact ⟨litem.id, Or.inl (by simp)⟩
          · rintro r hr h1 h2 h3
            cases hr
            refine ⟨rfl, ?_, fun hyes => absurd hyes hst, fun _ => ⟨rfl, rfl⟩⟩
            unfold usedFor
            simp [List.lookup]
          · intro hno
            exact absurd hcond (hno litem rfl)
      · rw [if_neg hcond]
        rw [insertStep_fresh _ _ _ _ _ (_event_body_icalUID ev _) hn']
        refine ⟨?_, ?_, ?_⟩
        · constructor
          · rintro ⟨eid, hmem | hmem⟩ <;> simp at hmem
          · rintro ⟨r, hr, h1, h2, h3⟩
            cases hr
            exact absurd ⟨h1, h2, h3⟩ hcond
        · rintro r hr h1 h2 h3
          cases hr
          exact absurd ⟨h1, h2, h3⟩ hcond
        · intro _; exact ⟨rfl, rfl, rfl⟩
  | none =>
    rw [legacyStep_miss hash chat_id ev es st _ _ hcache]
    cases hli : (gfind st (legacy_uid hash chat_id ev)).1 with
    | none =>
      dsimp only
      rw [insertStep_fresh _ _ _ _ _ (_event_body_icalUID ev _) hn']
      refine ⟨?_, ?_, ?_⟩
      · constructor
        · rintro ⟨eid, hmem | hmem⟩ <;> simp at hmem
        · rintro ⟨r, hr, -⟩; cases hr
      · intro r hr; cases hr
      · intro _; exact ⟨rfl, rfl, rfl⟩
    | some litem =>
      dsimp only
      by_cases hcond : litem.id ∉ usedFor es (_norm_summary ev.summary) ∧
          _item_start_date litem = some ev.start_date ∧
          (_item_end_date_inclusive litem = none ∨
            _item_end_date_inclusive litem = some ev.end_date)
      · rw [if_pos hcond]
        by_cases hst : litem.status = "cancelled"
        · rw [if_pos hst]
          refine ⟨?_, ?_, ?_⟩
          · constructor
            · intro _; exact ⟨litem, rfl, hcond.1, hcond.2.1, hcond.2.2⟩
            · intro _; exact ⟨litem.id, Or.inr (by simp)⟩
          · rintro r hr h1 h2 h3
            cases hr
            refine ⟨rfl, ?_, fun _ => ⟨rfl, rfl⟩, fun hne => absurd hst hne⟩
            unfold usedFor
            simp [List.lookup]
          · intro hno
            exact absurd hcond (hno litem rfl)
        · rw [if_neg hst]
          refine ⟨?_, ?_, ?_⟩
          · constructor
            · intro _; exact ⟨litem, rfl, hcond.1, hcond.2.1, hcond.2.2⟩
            · intro _; exact ⟨litem.id, Or.inl (by simp)⟩
          · rintro r hr h1 h2 h3
            cases hr
            refine ⟨rfl, ?_, fun hyes => absurd hyes hst, fun _ => ⟨rfl, rfl⟩⟩
            unfold usedFor
            simp [List.lookup]
          · intro hno
            exact absurd hcond (hno litem rfl)
      · rw [if_neg hcond]
        rw [insertStep_fresh _ _ _ _ _ (_event_body_icalUID ev _) hn']
        refine ⟨?_, ?_, ?_⟩
        · constructor
          · rintro ⟨eid, hmem | hmem⟩ <;> simp at hmem
          · rintro ⟨r, hr, h1, h2, h3⟩
            cases hr
            exact absurd ⟨h1, h2, h3⟩ hcond
        · rintro r hr h1 h2 h3
          cases hr
          exact absurd ⟨h1, h2, h3⟩ hcond
        · intro _; exact ⟨rfl, rfl, rfl⟩

theorem insertStep_es_log {σ : Type} (svc : CalSvc σ) (uid : String) (body : GBody)
    (es : EngineSt) (st : σ) (pre : List EAct) :
    (insertStep svc uid body es st pre).es = es ∧
    ∃ tail, (insertStep svc uid body es st pre).log = pre ++ tail ∧
      ∀ a ∈ tail, ∀ s', a ≠ EAct.legacy_lookup s' := by
  unfold insertStep
  dsimp only
  cases (svc.insert st body).1 with
  | ok u => exact ⟨rfl, [.insert uid], rfl, by rintro a ha s' rfl; simp at ha⟩
  | error c =>
    dsimp only
    by_cases hc : c = 409
    · rw [if_pos hc]
      cases (svc.find (svc.insert st body).2 uid).1 with
      | some it2 =>
        dsimp only
        by_cases hst : it2.status = "cancelled"
        · rw [if_pos hst]
          exact ⟨rfl, [.insert uid, .conflict_revive it2.id], rfl,
            by rintro a ha s' rfl; simp at ha⟩
        · rw [if_neg hst]
          exact ⟨rfl, [.insert uid, .conflict_update it2.id], rfl,
            by rintro a ha s' rfl; simp at ha⟩
      | none => exact ⟨rfl, [.insert uid], rfl, by rintro a ha s' rfl; simp at ha⟩
    · rw [if_neg hc]
      exact ⟨rfl, [.insert uid], rfl, by rintro a ha s' rfl; simp at ha⟩

theorem tail_count_zero (pre tail : List EAct) (s : String)
    (h : ∀ a ∈ tail, ∀ s', a ≠ EAct.legacy_lookup s') :
    (pre ++ tail).count (EAct.legacy_lookup s) = pre.count (EAct.legacy_lookup s) := by
  rw [List.count_append]
  have : tail.count (EAct.legacy_lookup s) = 0 := by
    rw [List.count_eq_zero]
    intro hmem
    exact h _ hmem s rfl
  omega

theorem processEvent_lookup_count (hash : UidKey → String) (chat_id : Int)
    (colliders : List String) (ev : ParsedEvent) (es : EngineSt) (st : GCalState)
    (s : String) :
    ((processEvent gcalSvc hash chat_id colliders ev es st).log.count
        (EAct.legacy_lookup s) ≤ 1) ∧
    ((es.legacyCache.lookup s).isSome = true →
      (processEvent gcalSvc hash chat_id colliders ev es st).log.count
        (EAct.legacy_lookup s) = 0) ∧
    ((es.legacyCache.lookup s).isSome = true →
      (((processEvent gcalSvc hash chat_id colliders ev es st).es.legacyCache.lookup s).isSome
        = true)) ∧
    ((processEvent gcalSvc hash chat_id colliders ev es st).log.count
        (EAct.legacy_lookup s) ≥ 1 →
      (((processEvent gcalSvc hash chat_id colliders ev es st).es.legacyCache.lookup s).isSome
        = true)) := by
  cases hfind : (gfind st (event_uid hash chat_id ev
      (colliders.contains (_norm_summary ev.summary)))).1 with
  | some item =>
    rw [processEvent_eq_found hash chat_id colliders ev es st item hfind]
    by_cases hst : item.status = "cancelled"
    · rw [if_pos hst]
      refine ⟨?_, fun _ => ?_, fun h => h, ?_⟩ <;> simp [List.count_cons]
    · rw [if_neg hst]
      refine ⟨?_, fun _ => ?_, fun h => h, ?_⟩ <;> simp [List.count_cons]
  | none =>
    cases hcol : colliders.contains (_norm_summary ev.summary) with
    | false =>
      rw [hcol] at hfind
      rw [processEvent_eq_nofind_nocollide hash chat_id colliders ev es st hcol hfind]
      obtain ⟨hes, tail, hlog, htail⟩ := insertStep_es_log gcalSvc
        (event_uid hash chat_id ev false) (_event_body ev (event_uid hash chat_id ev false))
        es st []
      rw [hlog, hes]
      have hz := tail_count_zero [] tail s htail
      simp only [List.nil_append, List.count_nil] at hz ⊢
      refine ⟨by omega, fun _ => by omega, fun h => h, fun h => absurd h (by omega)⟩
    | true =>
      rw [hcol] at hfind
      rw [processEvent_eq_nofind_collide hash chat_id colliders ev es st hcol hfind]
      cases hcache : es.legacyCache.lookup (_norm_summary ev.summary) with
      | some v =>
        cases v with
        | none =>
          rw [legacyStep_hit_none hash chat_id ev es st _ _ hcache]
          obtain ⟨hes, tail, hlog, htail⟩ := insertStep_es_log gcalSvc
            (event_uid hash chat_id ev true)
            (_event_body ev (event_uid hash chat_id ev true)) es st []
          rw [hlog, hes]
          have hz := tail_count_zero [] tail s htail
          simp only [List.nil_append, List.count_nil] at hz ⊢
          refine ⟨by omega, fun _ => by omega, fun h => h, fun h => absurd h (by omega)⟩
        | some litem =>
          rw [legacyStep_hit hash chat_id ev es st litem _ _ hcache]
          by_cases hcond : litem.id ∉ usedFor es (_norm_summary ev.summary) ∧
              _item_start_date litem = some ev.start_date ∧
              (_item_end_date_inclusive litem = none ∨
                _item_end_date_inclusive litem = some ev.end_date)
          · rw [if_pos hcond]
            by_cases hst : litem.status = "cancelled"
            · rw [if_pos hst]
              refine ⟨?_, fun _ => ?_, fun h => h, ?_⟩ <;> simp [List.count_cons]
            · rw [if_neg hst]
              refine ⟨?_, fun _ => ?_, fun h => h, ?_⟩ <;> simp [List.count_cons]
          · rw [if_neg hcond]
            obtain ⟨hes, tail, hlog, htail⟩ := insertStep_es_log gcalSvc
              (event_uid hash chat_id ev true)
              (_event_body ev (event_uid hash chat_id ev true)) es st []
            rw [hlog, hes]
            have hz := tail_count_zero [] tail s htail
            simp only [List.nil_append, List.count_nil] at hz ⊢
            refine ⟨by omega, fun _ => by omega, fun h => h, fun h => absurd h (by omega)⟩
      | none =>
        rw [legacyStep_miss hash chat_id ev es st _ _ hcache]
        cases hli : (gfind st (legacy_uid hash chat_id ev)).1 with
        | none =>
          dsimp only
          obtain ⟨hes, tail, hlog, htail⟩ := insertStep_es_log gcalSvc
            (event_uid hash chat_id ev true)
            (_event_body ev (event_uid hash chat_id ev true))
            ⟨(_norm_summary ev.summary, none) :: es.legacyCache, es.legacyUsed⟩ st
            [EAct.legacy_lookup (_norm_summary ev.summary)]
          rw [hlog, hes]
          rw [tail_count_zero _ tail s htail]
          by_cases hs : _norm_summary ev.summary = s
          · subst hs
            refine ⟨by simp [List.count_cons], ?_, ?_, ?_⟩
            · intro hsome
              rw [hcache] at hsome
              simp at hsome
            · intro hsome
              rw [hcache] at hsome
              simp at hsome
            · intro _
              simp [List.lookup]
          · have hne : EAct.legacy_lookup (_norm_summary ev.summary) ≠
                EAct.legacy_lookup s := fun h => hs (by injection h)
            have hcnt : List.count (EAct.legacy_lookup s)
                [EAct.legacy_lookup (_norm_summary ev.summary)] = 0 := by
              simp [List.count_cons, hne]
            refine ⟨by omega, fun _ => hcnt, ?_, fun h => absurd h (by omega)⟩
            intro hsome
            simp only [List.lookup]
            have : (s == _norm_summary ev.summary) = false := by
              rw [beq_eq_false_iff_ne]
              exact fun h => hs h.symm
            rw [this]
            exact hsome
        | some litem =>
          dsimp only
          by_cases hcond : litem.id ∉ usedFor es (_norm_summary ev.summary) ∧
              _item_start_date litem = some ev.start_date ∧
              (_item_end_date_inclusive litem = none ∨
                _item_end_date_inclusive litem = some ev.end_date)
          · rw [if_pos hcond]
            by_cases hst : litem.status = "cancelled" <;>
              [rw [if_pos hst]; rw [if_neg hst]] <;>
            · by_cases hs : _norm_summary ev.summary = s
              · subst hs
                refine ⟨by simp [List.count_cons], ?_, ?_, ?_⟩
                · intro hsome; rw [hcache] at hsome; simp at hsome
                · intro hsome; rw [hcache] at hsome; simp at hsome
                · intro _; simp [List.lookup]
              · have hcnt2 : EAct.legacy_lookup (_norm_summary ev.summary) ≠
                    EAct.legacy_lookup s := fun h => hs (by injection h)
                refine ⟨by simp [List.count_cons, hcnt2], ?_, ?_, ?_⟩
                · intro _; simp [List.count_cons, hcnt2]
                · intro hsome
                  simp only [List.lookup]
                  have : (s == _norm_summary ev.summary) = false := by
                    rw [beq_eq_false_iff_ne]
                    exact fun h => hs h.symm
                  rw [this]
                  exact hsome
                · intro h
                  exfalso
                  revert h
                  simp [List.count_cons, hcnt2]
          · rw [if_neg hcond]
            obtain ⟨hes, tail, hlog, htail⟩ := insertStep_es_log gcalSvc
              (event_uid hash chat_id ev true)
              (_event_body ev (event_uid hash chat_id ev true))
              ⟨(_norm_summary ev.summary, some litem) :: es.legacyCache, es.legacyUsed⟩ st
              [EAct.legacy_lookup (_norm_summary ev.summary)]
            rw [hlog, hes]
            rw [tail_count_zero _ tail s htail]
            by_cases hs : _norm_summary ev.summary = s
            · subst hs
              refine ⟨by simp [List.count_cons], ?_, ?_, ?_⟩
              · intro hsome; rw [hcache] at hsome; simp at hsome
              · intro hsome; rw [hcache] at hsome; simp at hsome
              · intro _; simp [List.lookup]
            · have hne : EAct.legacy_lookup (_norm_summary ev.summary) ≠
                  EAct.legacy_lookup s := fun h => hs (by injection h)
              have hcnt : List.count (EAct.legacy_lookup s)
                  [EAct.legacy_lookup (_norm_summary ev.summary)] = 0 := by
                simp [List.count_cons, hne]
              refine ⟨by omega, fun _ => hcnt, ?_, fun h => absurd h (by omega)⟩
              intro hsome
              simp only [List.lookup]
              have : (s == _norm_summary ev.summary) = false := by
                rw [beq_eq_false_iff_ne]
                exact fun h => hs h.symm
              rw [this]
              exact hsome

theorem upsertGo_lookup (hash : UidKey → String) (chat_id : Int)
    (colliders : List String) (s : String) :
    ∀ (events : List ParsedEvent) (es : EngineSt) (st : GCalState),
    ((upsertGo gcalSvc hash chat_id colliders events es st).2.1.count
        (EAct.legacy_lookup s) ≤ 1) ∧
    ((es.legacyCache.lookup s).isSome = true →
      (upsertGo gcalSvc hash chat_id colliders events es st).2.1.count
        (EAct.legacy_lookup s) = 0) := by
  intro events
  induction events with
  | nil => intro es st; simp [upsertGo]
  | cons ev rest ih =>
    intro es st
    obtain ⟨h1, h2, h3, h4⟩ := processEvent_lookup_count hash chat_id colliders ev es st s
    simp only [upsertGo]
    cases hres : (processEvent gcalSvc hash chat_id colliders ev es st).res with
    | error c =>
      dsimp only
      exact ⟨h1, h2⟩
    | ok u =>
      dsimp only
      rw [List.count_append]
      obtain ⟨g1, g2⟩ := ih (processEvent gcalSvc hash chat_id colliders ev es st).es
        (processEvent gcalSvc hash chat_id colliders ev es st).st
      constructor
      · rcases Nat.eq_zero_or_pos ((processEvent gcalSvc hash chat_id colliders
            ev es st).log.count (EAct.legacy_lookup s)) with hz | hpos
        · omega
        · have hg := g2 (h4 (by omega))
          omega
      · intro hsome
        have hc := h2 hsome
        have hs2 := g2 (h3 hsome)
        omega

theorem c8_lookup_once (hash : UidKey → String) (chat_id : Int)
    (events : List ParsedEvent) (st : GCalState) (s : String) :
    (upsert_events gcalSvc hash chat_id events st).log.count (EAct.legacy_lookup s) ≤ 1 := by
  unfold upsert_events
  dsimp only
  exact (upsertGo_lookup hash chat_id (collision_summaries events) s events ⟨[], []⟩ st).1

/-- C8: for a colliding event not found under its current identity, the
legacy record (obtained by a cached legacy lookup performed at most once
per distinct normalized summary per run — the run log never contains two
legacy lookups of the same summary) is claimed if and only if it exists,
its id is not already in the used set for that summary, its start date
equals the event's start date, and its inclusive end date is absent or
equal to the event's end date; a claimed record is updated or revived with
a body carrying the legacy identity (not the collision-safe one) and its
id is added to the used set; on any mismatch the event falls through to a
normal insert under the current identity. -/
theorem c8_legacy_claim :
    (∀ (hash : UidKey → String) (chat_id : Int) (colliders : List String)
      (ev : ParsedEvent) (es : EngineSt) (st : GCalState),
      colliders.contains (_norm_summary ev.summary) = true →
      (gfind st (event_uid hash chat_id ev true)).1 = none →
      ((∃ eid, EAct.legacy_update eid ∈
          (processEvent gcalSvc hash chat_id colliders ev es st).log ∨
        EAct.legacy_revive eid ∈ (processEvent gcalSvc hash chat_id colliders ev es st).log) ↔
        (∃ r, (match es.legacyCache.lookup (_norm_summary ev.summary) with
                | some v => v
                | none => (gfind st (legacy_uid hash chat_id ev)).1) = some r ∧
          r.id ∉ usedFor es (_norm_summary ev.summary) ∧
          _item_start_date r = some ev.start_date ∧
          (_item_end_date_inclusive r = none ∨ _item_end_date_inclusive r = some ev.end_date))) ∧
      (∀ r, (match es.legacyCache.lookup (_norm_summary ev.summary) with
              | some v => v
              | none => (gfind st (legacy_uid hash chat_id ev)).1) = some r →
        r.id ∉ usedFor es (_norm_summary ev.summary) →
        _item_start_date r = some ev.start_date →
        (_item_end_date_inclusive r = none ∨ _item_end_date_inclusive r = some ev.end_date) →
        (processEvent gcalSvc hash chat_id colliders ev es st).res = .ok () ∧
        usedFor (processEvent gcalSvc hash chat_id colliders ev es st).es
            (_norm_summary ev.summary) =
          r.id :: usedFor es (_norm_summary ev.summary) ∧
        (r.status = "cancelled" →
          (processEvent gcalSvc hash chat_id colliders ev es st).log =
            (match es.legacyCache.lookup (_norm_summary ev.summary) with
              | some _ => [] | none => [EAct.legacy_lookup (_norm_summary ev.summary)]) ++
              [.legacy_revive r.id] ∧
          (processEvent gcalSvc hash chat_id colliders ev es st).st =
            gpatch st r.id (patchBody (_event_body ev (legacy_uid hash chat_id ev)))) ∧
        (r.status ≠ "cancelled" →
          (processEvent gcalSvc hash chat_id colliders ev es st).log =
            (match es.legacyCache.lookup (_norm_summary ev.summary) with
              | some _ => [] | none => [EAct.legacy_lookup (_norm_summary ev.summary)]) ++
              [.legacy_update r.id] ∧
          (processEvent gcalSvc hash chat_id colliders ev es st).st =
            gupdate st r.id (_event_body ev (legacy_uid hash chat_id ev)))) ∧
      ((∀ r, (match es.legacyCache.lookup (_norm_summary ev.summary) with
              | some v => v
              | none => (gfind st (legacy_uid hash chat_id ev)).1) = some r →
        ¬(r.id ∉ usedFor es (_norm_summary ev.summary) ∧
          _item_start_date r = some ev.start_date ∧
          (_item_end_date_inclusive r = none ∨ _item_end_date_inclusive r = some ev.end_date))) →
        (processEvent gcalSvc hash chat_id colliders ev es st).res = .ok () ∧
        (processEvent gcalSvc hash chat_id colliders ev es st).log =
          (match es.legacyCache.lookup (_norm_summary ev.summary) with
            | some _ => [] | none => [EAct.legacy_lookup (_norm_summary ev.summary)]) ++
            [.insert (event_uid hash chat_id ev true)] ∧
        (processEvent gcalSvc hash chat_id colliders ev es st).st =
          ⟨st.recs ++ [recordOfBody st.nextId
            (_event_body ev (event_uid hash chat_id ev true))], st.nextId + 1⟩)) ∧
    (∀ (hash : UidKey → String) (chat_id : Int) (events : List ParsedEvent)
      (st : GCalState) (s : String),
      (upsert_events gcalSvc hash chat_id events st).log.count (EAct.legacy_lookup s) ≤ 1) :=
  ⟨fun hash chat_id colliders ev es st hc hn => c8_step hash chat_id colliders ev es st hc hn,
   fun hash chat_id events st s => c8_lookup_once hash chat_id events st s⟩

theorem c8_legacy_claim_witness :
    ((processEvent gcalSvc testHash 7 ["party"] cxE2 ⟨[], []⟩ cxS0).res = .ok () ∧
      (processEvent gcalSvc testHash 7 ["party"] cxE2 ⟨[], []⟩ cxS0).log =
        [EAct.legacy_lookup "party"] ++ [.insert (event_uid testHash 7 cxE2 true)] ∧
      (processEvent gcalSvc testHash 7 ["party"] cxE2 ⟨[], []⟩ cxS0).st =
        ⟨cxS0.recs ++ [recordOfBody cxS0.nextId
          (_event_body cxE2 (event_uid testHash 7 cxE2 true))], cxS0.nextId + 1⟩) ∧
    (upsert_events gcalSvc testHash 7 [cxE1, cxE2] cxS0).log.count
      (EAct.legacy_lookup "party") ≤ 1 := by
  have h := c8_legacy_claim
  have h1 := (h.1 testHash 7 ["party"] cxE2 ⟨[], []⟩ cxS0 (by decide) (by decide)).2.2
    (by decide)
  exact ⟨h1, h.2 testHash 7 [cxE1, cxE2] cxS0 "party"⟩


theorem hasUid_gpatch (st : GCalState) (eid : Nat) (p : GPatch) (u : String)
    (h : hasUid st u) : hasUid (gpatch st eid p) u := by
  obtain ⟨r, hr, hru⟩ := h
  refine ⟨(fun r => if r.id == eid then applyPatch r p else r) r, List.mem_map_of_mem _ hr, ?_⟩
  by_cases hid : r.id = eid
  · simpa [hid, applyPatch] using hru
  · simpa [hid] using hru

theorem nodup_ids_inj (st : GCalState) (hwf : WF st) (r1 r2 : GRecord)
    (h1 : r1 ∈ st.recs) (h2 : r2 ∈ st.recs) (hid : r1.id = r2.id) : r1 = r2 :=
  List.inj_on_of_nodup_map hwf.1 h1 h2 hid

theorem hasUid_gupdate (st : GCalState) (hwf : WF st) (r0 : GRecord) (b : GBody)
    (hr0 : r0 ∈ st.recs) (hb : b.icalUID = r0.icalUID) (u : String)
    (h : hasUid st u) : hasUid (gupdate st r0.id b) u := by
  obtain ⟨r, hr, hru⟩ := h
  refine ⟨(fun r => if r.id == r0.id then applyUpdate r b else r) r, List.mem_map_of_mem _ hr, ?_⟩
  by_cases hid : r.id = r0.id
  · have heq : r = r0 := nodup_ids_inj st hwf r r0 hr hr0 hid
    subst heq
    simp only [beq_self_eq_true, if_true]
    show b.icalUID = u
    rw [hb, hru]
  · simpa [hid] using hru

theorem WF_gupdate (st : GCalState) (hwf : WF st) (eid : Nat) (b : GBody) :
    WF (gupdate st eid b) := by
  obtain ⟨hnd, hbound⟩ := hwf
  constructor
  · have hmap : (gupdate st eid b).recs.map (fun r => r.id) =
        st.recs.map (fun r => r.id) := by
      show (st.recs.map _).map _ = _
      rw [List.map_map]
      apply List.map_congr_left
      intro r _
      by_cases hid : r.id = eid
      · simp [hid, applyUpdate]
      · simp [hid]
    rw [hmap]
    exact hnd
  · intro r hr
    obtain ⟨r0, hr0, hr0e⟩ := List.mem_map.mp hr
    subst hr0e
    by_cases hid : r0.id = eid
    · simpa [hid, applyUpdate] using hbound r0 hr0
    · simpa [hid] using hbound r0 hr0

theorem WF_gpatch (st : GCalState) (hwf : WF st) (eid : Nat) (p : GPatch) :
    WF (gpatch st eid p) := by
  obtain ⟨hnd, hbound⟩ := hwf
  constructor
  · have hmap : (gpatch st eid p).recs.map (fun r => r.id) =
        st.recs.map (fun r => r.id) := by
      show (st.recs.map _).map _ = _
      rw [List.map_map]
      apply List.map_congr_left
      intro r _
      by_cases hid : r.id = eid
      · simp [hid, applyPatch]
      · simp [hid]
    rw [hmap]
    exact hnd
  · intro r hr
    obtain ⟨r0, hr0, hr0e⟩ := List.mem_map.mp hr
    subst hr0e
    by_cases hid : r0.id = eid
    · simpa [hid, applyPatch] using hbound r0 hr0
    · simpa [hid] using hbound r0 hr0

theorem WF_append_insert (st : GCalState) (hwf : WF st) (b : GBody) :
    WF ⟨st.recs ++ [recordOfBody st.nextId b], st.nextId + 1⟩ := by
  obtain ⟨hnd, hbound⟩ := hwf
  constructor
  · show ((st.recs ++ [recordOfBody st.nextId b]).map (fun r => r.id)).Nodup
    rw [List.map_append, List.nodup_append]
    refine ⟨hnd, List.nodup_singleton _, ?_⟩
    intro x hx hx2
    obtain ⟨r0, hr0, hr0e⟩ := List.mem_map.mp hx
    simp only [List.map_cons, List.map_nil, List.mem_singleton] at hx2
    have hb := hbound r0 hr0
    have hxn : x = st.nextId := hx2
    rw [hxn] at hr0e
    omega
  · intro r hr
    show r.id < st.nextId + 1
    rcases List.mem_append.mp hr with hl | hl
    · have := hbound r hl
      omega
    · simp only [List.mem_singleton] at hl
      subst hl
      simp [recordOfBody]

theorem hasUid_append (st : GCalState) (b : GBody) (u : String) (h : hasUid st u) :
    hasUid ⟨st.recs ++ [recordOfBody st.nextId b], st.nextId + 1⟩ u := by
  obtain ⟨r, hr, hru⟩ := h
  exact ⟨r, List.mem_append_left _ hr, hru⟩

theorem processEvent_no_claim (hash : UidKey → String) (chat_id : Int)
    (colliders : List String) (ev : ParsedEvent) (es : EngineSt) (st : GCalState)
    (hwf : WF st)
    (hnc : NoClaim (processEvent gcalSvc hash chat_id colliders ev es st).log) :
    (processEvent gcalSvc hash chat_id colliders ev es st).res = .ok () ∧
    WF (processEvent gcalSvc hash chat_id colliders ev es st).st ∧
    (∀ u, hasUid st u → hasUid (processEvent gcalSvc hash chat_id colliders ev es st).st u) ∧
    hasUid (processEvent gcalSvc hash chat_id colliders ev es st).st
      (uidOf hash chat_id colliders ev) := by
  unfold uidOf
  cases hfind : (gfind st (event_uid hash chat_id ev
      (colliders.contains (_norm_summary ev.summary)))).1 with
  | some item =>
    rw [processEvent_eq_found hash chat_id colliders ev es st item hfind]
    obtain ⟨hmem, huid⟩ := gfind_eq_some st _ item hfind
    by_cases hst : item.status = "cancelled"
    · rw [if_pos hst]
      refine ⟨rfl, WF_gpatch st hwf item.id _, fun u hu => hasUid_gpatch st item.id _ u hu, ?_⟩
      refine ⟨(fun r => if r.id == item.id then applyPatch r (patchBody (_event_body ev
        (event_uid hash chat_id ev (colliders.contains (_norm_summary ev.summary))))) else r)
          item,
        List.mem_map_of_mem _ hmem, ?_⟩
      simp only [beq_self_eq_true, if_true]
      exact huid
    · rw [if_neg hst]
      have hbu : (_event_body ev (event_uid hash chat_id ev
          (colliders.contains (_norm_summary ev.summary)))).icalUID = item.icalUID := by
        rw [_event_body_icalUID]
        exact huid.symm
      refine ⟨rfl, WF_gupdate st hwf item.id _,
        fun u hu => hasUid_gupdate st hwf item _ hmem hbu u hu, ?_⟩
      refine ⟨(fun r => if r.id == item.id then applyUpdate r (_event_body ev
        (event_uid hash chat_id ev (colliders.contains (_norm_summary ev.summary)))) else r)
          item,
        List.mem_map_of_mem _ hmem, ?_⟩
      simp only [beq_self_eq_true, if_true]
      show (_event_body ev _).icalUID = _
      rw [_event_body_icalUID]
  | none =>
    cases hcol : colliders.contains (_norm_summary ev.summary) with
    | false =>
      rw [hcol] at hfind
      rw [processEvent_eq_nofind_nocollide hash chat_id colliders ev es st hcol hfind]
      have hn' := (gfind_eq_none st _).mp hfind
      rw [insertStep_fresh _ _ _ _ _ (_event_body_icalUID ev _) hn']
      refine ⟨rfl, WF_append_insert st hwf _, fun u hu => hasUid_append st _ u hu, ?_⟩
      refine ⟨recordOfBody st.nextId _,
        List.mem_append_right _ (List.mem_singleton_self _), ?_⟩
      exact _event_body_icalUID ev _
    | true =>
      rw [hcol] at hfind
      rw [processEvent_eq_nofind_collide hash chat_id colliders ev es st hcol hfind] at hnc ⊢
      have hn' := (gfind_eq_none st _).mp hfind
      cases hcache : es.legacyCache.lookup (_norm_summary ev.summary) with
      | some v =>
        cases v with
        | none =>
          rw [legacyStep_hit_none hash chat_id ev es st _ _ hcache]
          rw [insertStep_fresh _ _ _ _ _ (_event_body_icalUID ev _) hn']
          refine ⟨rfl, WF_append_insert st hwf _, fun u hu => hasUid_append st _ u hu, ?_⟩
          refine ⟨recordOfBody st.nextId _,
            List.mem_append_right _ (List.mem_singleton_self _), ?_⟩
          exact _event_body_icalUID ev _
        | some litem =>
          rw [legacyStep_hit hash chat_id ev es st litem _ _ hcache] at hnc ⊢
          by_cases hcond : litem.id ∉ usedFor es (_norm_summary ev.summary) ∧
              _item_start_date litem = some ev.start_date ∧
              (_item_end_date_inclusive litem = none ∨
                _item_end_date_inclusive litem = some ev.end_date)
          · exfalso
            rw [if_pos hcond] at hnc
            by_cases hst : litem.status = "cancelled"
            · rw [if_pos hst] at hnc
              have := hnc (EAct.legacy_revive litem.id) (by simp)
              simp [isClaimAct] at this
            · rw [if_neg hst] at hnc
              have := hnc (EAct.legacy_update litem.id) (by simp)
              simp [isClaimAct] at this
          · rw [if_neg hcond]
            rw [insertStep_fresh _ _ _ _ _ (_event_body_icalUID ev _) hn']
            refine ⟨rfl, WF_append_insert st hwf _, fun u hu => hasUid_append st _ u hu, ?_⟩
            refine ⟨recordOfBody st.nextId _,
              List.mem_append_right _ (List.mem_singleton_self _), ?_⟩
            exact _event_body_icalUID ev _
      | none =>
        rw [legacyStep_miss hash chat_id ev es st _ _ hcache] at hnc ⊢
        cases hli : (gfind st (legacy_uid hash chat_id ev)).1 with
        | none =>
          rw [hli] at hnc
          dsimp only at hnc ⊢
          rw [insertStep_fresh _ _ _ _ _ (_event_body_icalUID ev _) hn']
          refine ⟨rfl, WF_append_insert st hwf _, fun u hu => hasUid_append st _ u hu, ?_⟩
          refine ⟨recordOfBody st.nextId _,
            List.mem_append_right _ (List.mem_singleton_self _), ?_⟩
          exact _event_body_icalUID ev _
        | some litem =>
          rw [hli] at hnc
          dsimp only at hnc ⊢
          by_cases hcond : litem.id ∉ usedFor es (_norm_summary ev.summary) ∧
              _item_start_date litem = some ev.start_date ∧
              (_item_end_date_inclusive litem = none ∨
                _item_end_date_inclusive litem = some ev.end_date)
          · exfalso
            rw [if_pos hcond] at hnc
            by_cases hst : litem.status = "cancelled"
            · rw [if_pos hst] at hnc
              have := hnc (EAct.legacy_revive litem.id) (by simp)
              simp [isClaimAct] at this
            · rw [if_neg hst] at hnc
              have := hnc (EAct.legacy_update litem.id) (by simp)
              simp [isClaimAct] at this
          · rw [if_neg hcond]
            rw [insertStep_fresh _ _ _ _ _ (_event_body_icalUID ev _) hn']
            refine ⟨rfl, WF_append_insert st hwf _, fun u hu => hasUid_append st _ u hu, ?_⟩
            refine ⟨recordOfBody st.nextId _,
              List.mem_append_right _ (List.mem_singleton_self _), ?_⟩
            exact _event_body_icalUID ev _

theorem upsertGo_run1 (hash : UidKey → String) (chat_id : Int) (colliders : List String) :
    ∀ (events : List ParsedEvent) (es : EngineSt) (st : GCalState),
    WF st →
    NoClaim (upsertGo gcalSvc hash chat_id colliders events es st).2.1 →
    (upsertGo gcalSvc hash chat_id colliders events es st).1 = .ok () ∧
    WF (upsertGo gcalSvc hash chat_id colliders events es st).2.2 ∧
    (∀ u, hasUid st u →
      hasUid (upsertGo gcalSvc hash chat_id colliders events es st).2.2 u) ∧
    (∀ e ∈ events, hasUid (upsertGo gcalSvc hash chat_id colliders events es st).2.2
      (uidOf hash chat_id colliders e)) := by
  intro events
  induction events with
  | nil =>
    intro es st hwf _
    refine ⟨rfl, hwf, fun u hu => hu, fun e he => absurd he (List.not_mem_nil e)⟩
  | cons ev rest ih =>
    intro es st hwf hnc
    simp only [upsertGo] at hnc ⊢
    cases hres : (processEvent gcalSvc hash chat_id colliders ev es st).res with
    | error c =>
      rw [hres] at hnc
      dsimp only at hnc ⊢
      obtain ⟨h1, _, _, _⟩ := processEvent_no_claim hash chat_id colliders ev es st hwf hnc
      rw [hres] at h1
      cases h1
    | ok u =>
      rw [hres] at hnc
      dsimp only at hnc ⊢
      have hnc1 : NoClaim (processEvent gcalSvc hash chat_id colliders ev es st).log :=
        fun a ha => hnc a (List.mem_append_left _ ha)
      have hnc2 : NoClaim (upsertGo gcalSvc hash chat_id colliders rest
          (processEvent gcalSvc hash chat_id colliders ev es st).es
          (processEvent gcalSvc hash chat_id colliders ev es st).st).2.1 :=
        fun a ha => hnc a (List.mem_append_right _ ha)
      obtain ⟨h1, h2, h3, h4⟩ := processEvent_no_claim hash chat_id colliders ev es st hwf hnc1
      obtain ⟨g1, g2, g3, g4⟩ := ih (processEvent gcalSvc hash chat_id colliders ev es st).es
        (processEvent gcalSvc hash chat_id colliders ev es st).st h2 hnc2
      refine ⟨g1, g2, fun v hv => g3 v (h3 v hv), ?_⟩
      intro e he
      rcases List.mem_cons.mp he with heq | he'
      · subst heq
        exact g3 _ h4
      · exact g4 e he'

theorem processEvent_found_only (hash : UidKey → String) (chat_id : Int)
    (colliders : List String) (ev : ParsedEvent) (es : EngineSt) (st : GCalState)
    (hwf : WF st) (hhas : hasUid st (uidOf hash chat_id colliders ev)) :
    (processEvent gcalSvc hash chat_id colliders ev es st).res = .ok () ∧
    WF (processEvent gcalSvc hash chat_id colliders ev es st).st ∧
    (∀ u, hasUid st u → hasUid (processEvent gcalSvc hash chat_id colliders ev es st).st u) ∧
    (∃ eid, (processEvent gcalSvc hash chat_id colliders ev es st).log = [.found_update eid] ∨
      (processEvent gcalSvc hash chat_id colliders ev es st).log = [.found_revive eid]) := by
  unfold uidOf at hhas
  cases hfind : (gfind st (event_uid hash chat_id ev
      (colliders.contains (_norm_summary ev.summary)))).1 with
  | none =>
    exfalso
    obtain ⟨r, hr, hru⟩ := hhas
    exact (gfind_eq_none st _).mp hfind r hr hru
  | some item =>
    rw [processEvent_eq_found hash chat_id colliders ev es st item hfind]
    obtain ⟨hmem, huid⟩ := gfind_eq_some st _ item hfind
    by_cases hst : item.status = "cancelled"
    · rw [if_pos hst]
      exact ⟨rfl, WF_gpatch st hwf item.id _,
        fun u hu => hasUid_gpatch st item.id _ u hu, item.id, Or.inr rfl⟩
    · rw [if_neg hst]
      have hbu : (_event_body ev (event_uid hash chat_id ev
          (colliders.contains (_norm_summary ev.summary)))).icalUID = item.icalUID := by
        rw [_event_body_icalUID]
        exact huid.symm
      exact ⟨rfl, WF_gupdate st hwf item.id _,
        fun u hu => hasUid_gupdate st hwf item _ hmem hbu u hu, item.id, Or.inl rfl⟩

theorem upsertGo_run2 (hash : UidKey → String) (chat_id : Int) (colliders : List String) :
    ∀ (events : List ParsedEvent) (es : EngineSt) (st : GCalState),
    WF st →
    (∀ e ∈ events, hasUid st (uidOf hash chat_id colliders e)) →
    (upsertGo gcalSvc hash chat_id colliders events es st).1 = .ok () ∧
    (∀ a ∈ (upsertGo gcalSvc hash chat_id colliders events es st).2.1,
      ∃ eid, a = EAct.found_update eid ∨ a = EAct.found_revive eid) := by
  intro events
  induction events with
  | nil =>
    intro es st hwf _
    exact ⟨rfl, fun a ha => absurd ha (List.not_mem_nil a)⟩
  | cons ev rest ih =>
    intro es st hwf hhas
    simp only [upsertGo]
    obtain ⟨h1, h2, h3, eid, hlog⟩ := processEvent_found_only hash chat_id colliders ev es st
      hwf (hhas ev (List.mem_cons_self ev rest))
    cases hres : (processEvent gcalSvc hash chat_id colliders ev es st).res with
    | error c =>
      rw [hres] at h1
      cases h1
    | ok u =>
      dsimp only
      obtain ⟨g1, g2⟩ := ih (processEvent gcalSvc hash chat_id colliders ev es st).es
        (processEvent gcalSvc hash chat_id colliders ev es st).st h2
        (fun e he => h3 _ (hhas e (List.mem_cons_of_mem ev he)))
      refine ⟨g1, ?_⟩
      intro a ha
      rcases List.mem_append.mp ha with hl | hl
      · rcases hlog with hl2 | hl2 <;> rw [hl2] at hl <;>
          simp only [List.mem_singleton] at hl <;> subst hl
        · exact ⟨eid, Or.inl rfl⟩
        · exact ⟨eid, Or.inr rfl⟩
      · exact g2 a hl

/-- C1: idempotence of the reconciliation engine holds only when the first
run performed no legacy claim. Under that hypothesis (`NoClaim` of the first
run's decision log), the second run of `upsert_events` on the same batch
against the state left by the first run succeeds, performs zero inserts, and
resolves every event to `found_update` or `found_revive`. Without the
hypothesis the claim fails: a legacy-claimed record keeps the legacy UID in
its identity field, so the second run's current-identity lookup can miss it
(see `c1_counterexample`). -/
theorem c1_second_run_no_insert (hash : UidKey → String) (chat_id : Int)
    (events : List ParsedEvent) (st0 : GCalState)
    (hwf : WF st0)
    (hnc : NoClaim (upsert_events gcalSvc hash chat_id events st0).log) :
    (upsert_events gcalSvc hash chat_id events st0).res = .ok () ∧
    (upsert_events gcalSvc hash chat_id events
      (upsert_events gcalSvc hash chat_id events st0).fin).res = .ok () ∧
    (∀ u, EAct.insert u ∉ (upsert_events gcalSvc hash chat_id events
      (upsert_events gcalSvc hash chat_id events st0).fin).log) ∧
    (∀ a ∈ (upsert_events gcalSvc hash chat_id events
        (upsert_events gcalSvc hash chat_id events st0).fin).log,
      ∃ eid, a = EAct.found_update eid ∨ a = EAct.found_revive eid) := by
  unfold upsert_events at hnc ⊢
  dsimp only at hnc ⊢
  obtain ⟨h1, h2, _, h4⟩ := upsertGo_run1 hash chat_id (collision_summaries events)
    events ⟨[], []⟩ st0 hwf hnc
  obtain ⟨g1, g2⟩ := upsertGo_run2 hash chat_id (collision_summaries events)
    events ⟨[], []⟩
    (upsertGo gcalSvc hash chat_id (collision_summaries events) events ⟨[], []⟩ st0).2.2
    h2 h4
  refine ⟨h1, g1, ?_, g2⟩
  intro u hu
  obtain ⟨eid, heid⟩ := g2 _ hu
  rcases heid with h | h <;> cases h

theorem c1_counterexample :
    (¬ NoClaim (upsert_events gcalSvc testHash 7 [cxE1, cxE2] cxS0).log) ∧
    (upsert_events gcalSvc testHash 7 [cxE1, cxE2] cxS0).res = .ok () ∧
    (EAct.insert "tg-7-C:party:2024-3-12:2024-3-12@mastercal.local" ∈
      (upsert_events gcalSvc testHash 7 [cxE1, cxE2]
        (upsert_events gcalSvc testHash 7 [cxE1, cxE2] cxS0).fin).log) ∧
    (upsert_events gcalSvc testHash 7 [cxE1, cxE2] cxS0).fin.recs.length = 2 ∧
    (upsert_events gcalSvc testHash 7 [cxE1, cxE2]
      (upsert_events gcalSvc testHash 7 [cxE1, cxE2] cxS0).fin).fin.recs.length = 3 := by
  refine ⟨by decide, by decide, by decide, by decide, by decide⟩

theorem c1_second_run_no_insert_witness :
    WF (⟨[], 0⟩ : GCalState) ∧
    NoClaim (upsert_events gcalSvc testHash 7 [wEv] ⟨[], 0⟩).log ∧
    ((upsert_events gcalSvc testHash 7 [wEv] ⟨[], 0⟩).res = .ok () ∧
     (upsert_events gcalSvc testHash 7 [wEv]
       (upsert_events gcalSvc testHash 7 [wEv] ⟨[], 0⟩).fin).res = .ok () ∧
     (∀ u, EAct.insert u ∉ (upsert_events gcalSvc testHash 7 [wEv]
       (upsert_events gcalSvc testHash 7 [wEv] ⟨[], 0⟩).fin).log) ∧
     (∀ a ∈ (upsert_events gcalSvc testHash 7 [wEv]
         (upsert_events gcalSvc testHash 7 [wEv] ⟨[], 0⟩).fin).log,
       ∃ eid, a = EAct.found_update eid ∨ a = EAct.found_revive eid)) :=
  ⟨by decide, by decide,
    c1_second_run_no_insert testHash 7 [wEv] ⟨[], 0⟩ (by decide) (by decide)⟩
